import Mathlib

/-!
# File upload example: upload sequencing

Shallow embedding of `src/file-upload-example.cpp`: the tracked-file
collection, `generateTestFiles`, `uploadNextFile`, `processCompletedUploads`,
`eventStatusChangeCallback` and `loop`.  The global vector `files`, the device
filesystem and the static flag of `loop` are fields of an explicit `State`;
every call of a collaborator (filesystem, allocator, cloud transport, logger)
is recorded in the `trace` of the state, tagged with the index of the entry it
was made for.  What the collaborators answer is not fixed by the program, so it
is a parameter (`Env`, `GenEnv`).
-/

namespace FileUpload

/-! ## Constants (lines 13-18, 28) -/

/-- Directory of the generated files: `FILE_DIR`. -/
def FILE_DIR : String := "/upload_test"

/-- Smallest generated size: `const int MIN_FILE_SIZE = 1024`. -/
def MIN_FILE_SIZE : Int := 1024

/-- Largest generated size: `const int MAX_FILE_SIZE = 15 * 1024`. -/
def MAX_FILE_SIZE : Int := 15 * 1024

/-- Number of generated files: `const int NUM_FILES = 1`. -/
def NUM_FILES : Nat := 1

/-- Payload bound of one event: `const size_t MAX_EVENT_SIZE = 16384`. -/
def MAX_EVENT_SIZE : Nat := 16384

/-- Width of `size_t` on the target (32-bit ARM): conversions to `size_t` are taken modulo this. -/
def SIZE_T_MOD : Int := 2 ^ 32

/-- Event name shared by all uploads: `String::format("file-upload")`. -/
def eventName : String := "file-upload"

/-! ## Data model -/

/-- Modelled from the spec: the status of a transport event.  The class `CloudEvent` belongs to
the device library, not to the repository; the source names `NEW`, `SENT` and `FAILED`, the
spec lists the four values New, Pending, Sent, Failed.  `SENDING` is the Pending status. -/
inductive Status where
  | NEW
  | SENDING
  | SENT
  | FAILED
  deriving DecidableEq, Repr

/-- Modelled from the spec: content-type marker of an event (`ContentType::BINARY` in the source). -/
inductive ContentType where
  | TEXT
  | BINARY
  deriving DecidableEq, Repr

/-- Modelled from the spec: the transport event object, with the attributes that
`uploadNextFile` sets on it (lines 205-210).  The default value is the freshly constructed
`CloudEvent()`: status `NEW`, no name, no payload, no observer. -/
structure CloudEvent where
  status : Status := Status.NEW
  name : String := ""
  contentType : ContentType := ContentType.TEXT
  data : List Nat := []
  maxDataInRam : Option Nat := none
  onStatusChange : Bool := false
  deriving DecidableEq, Repr

/-- One tracked file: `struct FileEntry` (lines 20-26). -/
structure FileEntry where
  path : String
  size : Nat
  uploaded : Bool
  event : CloudEvent
  deriving DecidableEq, Repr

/-- Severity of a log line (`Log.info`, `Log.warn`, `Log.error`). -/
inductive LogLevel where
  | info
  | warn
  | error
  deriving DecidableEq, Repr

/-- A recorded call of a collaborator.  `i` is the index in `files` of the entry the call was
made for (in `createFile` and `writeFile`, the loop variable of `generateTestFiles`).
`publish i ev ok` stands for lines 205-216: the event `ev` is constructed, filled and passed
to `Particle.publish`, which answered `ok` (no branch lies between construction and publish).
`call` marks a call made by `loop`. -/
inductive Effect where
  | openFile (i : Nat) (path : String) (ok : Bool)
  | alloc (i : Nat) (size : Nat) (ok : Bool)
  | readFile (i : Nat) (path : String) (requested : Nat) (got : Option (List Nat))
  | publish (i : Nat) (ev : CloudEvent) (ok : Bool)
  | remove (i : Nat) (path : String) (ok : Bool)
  | createFile (i : Nat) (path : String) (ok : Bool)
  | writeFile (i : Nat) (path : String) (requested : Nat) (written : Int)
  | log (level : LogLevel) (format : String) (args : List String)
  | call (function : String)
  | delay (ms : Nat)
  deriving DecidableEq, Repr

/-- Modelled from the spec: the device filesystem, a map from path to the bytes of the
regular file stored there (`none`: no such file). -/
abbrev FileSystem := String → Option (List Nat)

/-- Filesystem after a successful `remove(path)`. -/
def FileSystem.erase (fs : FileSystem) (path : String) : FileSystem :=
  fun p => if p = path then none else fs p

/-- Filesystem after `path` received the bytes `bytes`. -/
def FileSystem.store (fs : FileSystem) (path : String) (bytes : List Nat) : FileSystem :=
  fun p => if p = path then some bytes else fs p

/-- How a `read` call may go wrong apart from the file being too short. -/
inductive ReadFault where
  | ok
  | error
  | short (n : Nat)
  deriving DecidableEq, Repr

/-- Answers of the collaborators during one call of `uploadNextFile` or
`processCompletedUploads`; the program does not determine them.
`publish ev` is the result of `Particle.publish` together with the status in which the
transport leaves the submitted event. -/
structure Env where
  connected : Bool
  canPublish : Nat → Bool
  publish : CloudEvent → Bool × Status
  openFault : String → Bool
  allocFault : Nat → Bool
  readFault : String → ReadFault
  removeFault : String → Bool

/-- Program state: the global `files`, the filesystem, the static
`completionMessagePrinted` of `loop`, and the calls made so far. -/
structure State where
  files : List FileEntry
  fs : FileSystem
  completionMessagePrinted : Bool
  trace : List Effect

/-! ## Filesystem calls -/

/-- Whether `open(path, O_RDONLY)` returns a descriptor (`fd >= 0`). -/
def openOk (env : Env) (fs : FileSystem) (path : String) : Bool :=
  (fs path).isSome && !env.openFault path

/-- Bytes delivered by `read(fd, buffer, size)`; `none` is the error return `-1`. -/
def readBytes (env : Env) (fs : FileSystem) (path : String) (size : Nat) : Option (List Nat) :=
  match env.readFault path with
  | ReadFault.error => none
  | ReadFault.short n => some (((fs path).getD []).take (min n size))
  | ReadFault.ok => some (((fs path).getD []).take size)

/-- The value returned by `read`, as the log line of line 197 prints it. -/
def bytesRead (got : Option (List Nat)) : Int :=
  match got with
  | none => -1
  | some bytes => bytes.length

/-- The test `bytesRead != entry.size` of line 195.  The error return `-1` becomes `SIZE_MAX`
as a `size_t`, which is not the size of a buffer that was allocated. -/
def readMismatch (got : Option (List Nat)) (size : Nat) : Bool :=
  match got with
  | none => true
  | some bytes => bytes.length != size

/-- Whether `remove(path) == 0`. -/
def removeOk (env : Env) (fs : FileSystem) (path : String) : Bool :=
  (fs path).isSome && !env.removeFault path

/-! ## uploadNextFile (lines 149-231) -/

/-- The skip test of lines 167-169: the entry is already uploaded, or its event is neither
`NEW` nor `FAILED`. -/
def skipped (entry : FileEntry) : Bool :=
  entry.uploaded ||
    (entry.event.status != Status.NEW && entry.event.status != Status.FAILED)

/-- The event set up in lines 205-210 from the bytes that were read. -/
def buildEvent (entry : FileEntry) (bytes : List Nat) : CloudEvent :=
  { status := Status.NEW
    name := eventName
    contentType := ContentType.BINARY
    data := bytes
    maxDataInRam := some entry.size
    onStatusChange := true }

/-- What one pass through the body of the `for` loop of `uploadNextFile` does for the entry
at hand: `flow` is `none` when the body ends in `continue` (or falls out at its end) and
`some b` when it ends in `return b`; `entry` is the entry as the body leaves it; `effects`
are the calls it made. -/
structure Visit where
  flow : Option Bool
  entry : FileEntry
  effects : List Effect

/-- The body of the `for` loop, lines 164-227, for `files[i] = entry`. -/
def uploadBody (env : Env) (fs : FileSystem) (i : Nat) (entry : FileEntry) : Visit :=
  if skipped entry then
    { flow := none, entry := entry, effects := [] }
  else if !openOk env fs entry.path then
    { flow := none
      entry := { entry with uploaded := true }
      effects :=
        [Effect.openFile i entry.path false,
         Effect.log LogLevel.error "Failed to open file for upload: %s" [entry.path]] }
  else if env.allocFault entry.size then
    { flow := some false
      entry := entry
      effects :=
        [Effect.openFile i entry.path true,
         Effect.alloc i entry.size false,
         Effect.log LogLevel.error "Failed to allocate memory for file upload" []] }
  else
    let got := readBytes env fs entry.path entry.size
    if readMismatch got entry.size then
      { flow := none
        entry := { entry with uploaded := true }
        effects :=
          [Effect.openFile i entry.path true,
           Effect.alloc i entry.size true,
           Effect.readFile i entry.path entry.size got,
           Effect.log LogLevel.error "Failed to read file: %s (read %d of %d bytes)"
             [entry.path, toString (bytesRead got), toString entry.size]] }
    else
      let ev := buildEvent entry (got.getD [])
      let answer := env.publish ev
      { flow := some answer.1
        entry := { entry with event := { ev with status := answer.2 } }
        effects :=
          [Effect.openFile i entry.path true,
           Effect.alloc i entry.size true,
           Effect.readFile i entry.path entry.size got,
           Effect.log LogLevel.info "Uploading file: %s (%d bytes) as event: %s"
             [entry.path, toString entry.size, eventName],
           Effect.publish i ev answer.1] ++
          (if answer.1 then []
           else [Effect.log LogLevel.error "Failed to start publish for file: %s"
                   [entry.path]]) }

/-- What the `for` loop of `uploadNextFile` hands back: the returned boolean (false when the
loop runs to its end, line 230), the entries from the current index on, the calls it made. -/
structure LoopResult where
  result : Bool
  files : List FileEntry
  effects : List Effect

/-- The `for` loop of lines 162-228, from index `i` over the entries `files[i], files[i+1], ...`. -/
def uploadLoop (env : Env) (fs : FileSystem) : Nat → List FileEntry → LoopResult
  | _, [] => { result := false, files := [], effects := [] }
  | i, entry :: rest =>
    let v := uploadBody env fs i entry
    match v.flow with
    | none =>
      let r := uploadLoop env fs (i + 1) rest
      { result := r.result, files := v.entry :: r.files, effects := v.effects ++ r.effects }
    | some b => { result := b, files := v.entry :: rest, effects := v.effects }

/-- The function `uploadNextFile`: the two guards of lines 151-159, then the loop. -/
def uploadNextFile (env : Env) (s : State) : Bool × State :=
  if !env.connected then (false, s)
  else if !env.canPublish MAX_EVENT_SIZE then (false, s)
  else
    let r := uploadLoop env s.fs 0 s.files
    (r.result, { s with files := r.files, trace := s.trace ++ r.effects })

/-! ## processCompletedUploads (lines 233-267) -/

/-- What the loop of `processCompletedUploads` leaves: entries, filesystem, calls made. -/
structure SweepResult where
  files : List FileEntry
  fs : FileSystem
  effects : List Effect

/-- The body of the `for` loop, lines 237-265, for `files[i] = entry`: the entry and the
filesystem as the body leaves them, and the calls it made. -/
def processBody (env : Env) (fs : FileSystem) (i : Nat) (entry : FileEntry) :
    FileEntry × FileSystem × List Effect :=
  if !entry.uploaded then
    if entry.event.status = Status.SENT then
      let ok := removeOk env fs entry.path
      ({ entry with uploaded := true },
       (if ok then fs.erase entry.path else fs),
       [Effect.log LogLevel.info "Upload successful for file: %s - deleting..." [entry.path],
        Effect.remove i entry.path ok,
        (if ok then Effect.log LogLevel.info "Successfully deleted file: %s" [entry.path]
         else Effect.log LogLevel.error "Failed to delete file: %s" [entry.path])])
    else if entry.event.status = Status.FAILED then
      (entry, fs,
       [Effect.log LogLevel.warn "Upload failed for file: %s - will retry" [entry.path]])
    else (entry, fs, [])
  else (entry, fs, [])

/-- The `for` loop of lines 235-266, from index `i`. -/
def processLoop (env : Env) : Nat → List FileEntry → FileSystem → SweepResult
  | _, [], fs => { files := [], fs := fs, effects := [] }
  | i, entry :: rest, fs =>
    let b := processBody env fs i entry
    let r := processLoop env (i + 1) rest b.2.1
    { files := b.1 :: r.files, fs := r.fs, effects := b.2.2 ++ r.effects }

/-- The function `processCompletedUploads`. -/
def processCompletedUploads (env : Env) (s : State) : State :=
  let r := processLoop env 0 s.files s.fs
  { s with files := r.files, fs := r.fs, trace := s.trace ++ r.effects }

/-! ## eventStatusChangeCallback (lines 269-279) -/

/-- The observer registered on every event: it only logs. -/
def eventStatusChangeCallback (event : CloudEvent) : List Effect :=
  if event.status = Status.SENT then
    [Effect.log LogLevel.info "Event sent: %s" [event.name]]
  else if event.status = Status.FAILED then
    [Effect.log LogLevel.error "Event failed: %s" [event.name]]
  else []

/-! ## loop (lines 47-79) -/

/-- The text of the completion message of line 73. -/
def completionMessage : Effect :=
  Effect.log LogLevel.info "All files uploaded successfully!" []

/-- The scan of lines 53-61: `allUploaded` stays true when no entry is found not uploaded. -/
def allUploaded (files : List FileEntry) : Bool :=
  files.all (fun file => file.uploaded)

/-- One iteration of `loop`. -/
def loop (env : Env) (s : State) : State :=
  let s1 := processCompletedUploads env
    { s with trace := s.trace ++ [Effect.call "processCompletedUploads"] }
  let s2 :=
    if !allUploaded s1.files then
      (uploadNextFile env { s1 with trace := s1.trace ++ [Effect.call "uploadNextFile"] }).2
    else if !s1.completionMessagePrinted then
      { s1 with trace := s1.trace ++ [completionMessage], completionMessagePrinted := true }
    else s1
  { s2 with trace := s2.trace ++ [Effect.delay 100] }

/-! ## The run of the program: ticks of `loop` and status changes made by the transport -/

/-- Modelled from the spec: the transport settles the in-flight event of entry `i`.  An event
in the Pending status moves to `SENT` or `FAILED` and its observer, when registered, is run;
nothing else is changed by the transport. -/
def statusChange (i : Nat) (outcome : Status) (s : State) : State :=
  match s.files[i]? with
  | none => s
  | some entry =>
    if entry.event.status = Status.SENDING ∧ (outcome = Status.SENT ∨ outcome = Status.FAILED) then
      let ev := { entry.event with status := outcome }
      { s with
        files := s.files.set i { entry with event := ev }
        trace := s.trace ++ (if ev.onStatusChange then eventStatusChangeCallback ev else []) }
    else s

/-- What happens next: an iteration of `loop` (with the answers the collaborators give during
it), or the transport settling the event of entry `i`. -/
inductive Action where
  | tick (env : Env)
  | settle (i : Nat) (outcome : Status)

/-- One action. -/
def step (a : Action) (s : State) : State :=
  match a with
  | Action.tick env => loop env s
  | Action.settle i outcome => statusChange i outcome s

/-- A sequence of actions, in order. -/
def run : List Action → State → State
  | [], s => s
  | a :: rest, s => run rest (step a s)

/-- Number of entries whose event is in the Pending status. -/
def pendingCount (files : List FileEntry) : Nat :=
  files.countP (fun entry => entry.event.status = Status.SENDING)

/-- Whether the transport admits a publish: the two guards of lines 151-159 both pass. -/
def admits (env : Env) : Bool :=
  env.connected && env.canPublish MAX_EVENT_SIZE

/-- A run in which the transport admits no publish on a tick at whose start some entry is in
the Pending status. -/
def gated : List Action → State → Bool
  | [], _ => true
  | Action.tick env :: rest, s =>
    (pendingCount s.files == 0 || !admits env) && gated rest (loop env s)
  | Action.settle i outcome :: rest, s => gated rest (statusChange i outcome s)

/-! ## generateTestFiles (lines 104-147) and generateRandomContent (lines 281-296) -/

/-- Answers of the collaborators during `generateTestFiles`: `rand k` is the value of the
`k`-th call of `rand()`, `createFault path` says that `open` with `O_CREAT` fails, and
`written path n` is the return value of `write` for `n` bytes. -/
structure GenEnv where
  rand : Nat → Int
  createFault : String → Bool
  written : String → Nat → Int

/-- The character set of `generateRandomContent` (62 characters). -/
def charset : List Char :=
  "0123456789ABCDEFGHIJKLMNOPQRSTUVWXYZabcdefghijklmnopqrstuvwxyz".toList

/-- The function `generateRandomContent`, drawing the values `rand k, rand (k+1), ...`.  In
`rand() % (sizeof(charset) - 1)` the value of `rand()` is converted to `size_t`. -/
def generateRandomContent (rand : Nat → Int) (k : Nat) (size : Nat) : String :=
  String.mk ((List.range size).map
    (fun j => charset.getD (((rand (k + j)) % SIZE_T_MOD).toNat % (charset.length + 1 - 1)) '0'))

/-- Line 111: `size_t fileSize = MIN_FILE_SIZE + (rand() % (MAX_FILE_SIZE - MIN_FILE_SIZE + 1))`,
computed in `int` (the remainder of C truncates toward zero) and converted to `size_t`. -/
def fileSize (r : Int) : Nat :=
  ((MIN_FILE_SIZE + Int.tmod r (MAX_FILE_SIZE - MIN_FILE_SIZE + 1)) % SIZE_T_MOD).toNat

/-- Line 114: `String::format("%s/file_%d.dat", FILE_DIR, i)`. -/
def filePath (i : Nat) : String :=
  FILE_DIR ++ "/file_" ++ toString i ++ ".dat"

/-- The `for` loop of lines 108-144: `remaining` iterations are left, `i` is the loop
variable and `k` counts the calls of `rand()` made so far. -/
def generateLoop (genv : GenEnv) : Nat → Nat → Nat → State → State
  | 0, _, _, s => s
  | remaining + 1, i, k, s =>
    let size := fileSize (genv.rand k)
    let path := filePath i
    if genv.createFault path then
      generateLoop genv remaining (i + 1) (k + 1)
        { s with trace := s.trace ++
            [Effect.createFile i path false,
             Effect.log LogLevel.error "Failed to create file: %s" [path]] }
    else
      let content := generateRandomContent genv.rand (k + 1) size
      let ret := genv.written path content.length
      let bytesWritten := (ret % SIZE_T_MOD).toNat
      let fs1 := s.fs.store path ((content.toList.map Char.toNat).take ret.toNat)
      if bytesWritten != content.length then
        generateLoop genv remaining (i + 1) (k + 1 + size)
          { s with
            fs := fs1
            trace := s.trace ++
              [Effect.createFile i path true,
               Effect.writeFile i path content.length ret,
               Effect.log LogLevel.error "Failed to write file: %s (wrote %d of %d bytes)"
                 [path, toString ret, toString content.length]] }
      else
        generateLoop genv remaining (i + 1) (k + 1 + size)
          { s with
            files := s.files ++ [{ path := path, size := size, uploaded := false, event := {} }]
            fs := fs1
            trace := s.trace ++
              [Effect.createFile i path true,
               Effect.writeFile i path content.length ret,
               Effect.log LogLevel.info "Generated file: %s (%d bytes)" [path, toString size]] }

/-- The function `generateTestFiles`; the constant `NUM_FILES` is the argument `numFiles`
(the source fixes it to 1). -/
def generateTestFiles (numFiles : Nat) (genv : GenEnv) (s : State) : State :=
  let s1 := generateLoop genv numFiles 0 0
    { s with trace := s.trace ++
        [Effect.log LogLevel.info "Generating %d test files..." [toString numFiles]] }
  { s1 with trace := s1.trace ++
      [Effect.log LogLevel.info "Generated %d files" [toString s1.files.length]] }

/-- The state in which `setup` calls `generateTestFiles`: no tracked file yet, the
completion message not printed. -/
def initial (fs : FileSystem) : State :=
  { files := [], fs := fs, completionMessagePrinted := false, trace := [] }

/-- Index of the entry a recorded call was made for; log lines, call marks and delays carry
none. -/
def Effect.entryIndex : Effect → Option Nat
  | Effect.openFile i _ _ => some i
  | Effect.alloc i _ _ => some i
  | Effect.readFile i _ _ _ => some i
  | Effect.publish i _ _ => some i
  | Effect.remove i _ _ => some i
  | Effect.createFile i _ _ => some i
  | Effect.writeFile i _ _ _ => some i
  | Effect.log _ _ _ => none
  | Effect.call _ => none
  | Effect.delay _ => none

/-- The calls recorded between the state `s` and a later state `t`. -/
def effectsSince (s t : State) : List Effect :=
  t.trace.drop s.trace.length

/-- What `processCompletedUploads` makes of one entry: an entry not yet uploaded whose event
is `SENT` is marked uploaded, every other entry is kept. -/
def retired (entry : FileEntry) : FileEntry :=
  if entry.uploaded = false ∧ entry.event.status = Status.SENT then
    { entry with uploaded := true }
  else entry

/-- The body of the loop of `uploadNextFile` goes on to the next entry: the entry is
skipped, or its file does not open, or (the buffer being allocated) the read does not return
`size` bytes. -/
def passesOver (env : Env) (fs : FileSystem) (entry : FileEntry) : Bool :=
  skipped entry || !openOk env fs entry.path ||
    (!env.allocFault entry.size &&
      readMismatch (readBytes env fs entry.path entry.size) entry.size)

/-- The file of the entry is read in full: it opens, the buffer is allocated and `read`
returns exactly `size` bytes. -/
def readable (env : Env) (fs : FileSystem) (entry : FileEntry) : Bool :=
  openOk env fs entry.path && !env.allocFault entry.size &&
    !readMismatch (readBytes env fs entry.path entry.size) entry.size

/-- The first `size` bytes of the file stored at the path of the entry. -/
def diskBytes (fs : FileSystem) (entry : FileEntry) : List Nat :=
  ((fs entry.path).getD []).take entry.size

/-- Whether some tick of the run finds every file uploaded at its check (lines 53-63), that
is after the `processCompletedUploads` of that tick. -/
def completes : List Action → State → Bool
  | [], _ => false
  | Action.tick env :: rest, s =>
    allUploaded (processCompletedUploads env s).files || completes rest (loop env s)
  | Action.settle i outcome :: rest, s => completes rest (statusChange i outcome s)

/-- Whether a recorded call is a publish. -/
def Effect.isPublish : Effect → Bool
  | Effect.publish _ _ _ => true
  | _ => false

/-! ## Concrete inputs -/

/-- A transport and filesystem without faults: connected, capacity available, every publish
accepted and left in the Pending status. -/
def envOk : Env :=
  { connected := true
    canPublish := fun _ => true
    publish := fun _ => (true, Status.SENDING)
    openFault := fun _ => false
    allocFault := fun _ => false
    readFault := fun _ => ReadFault.ok
    removeFault := fun _ => false }

/-- As `envOk`, but `canPublish` answers false. -/
def envNoCapacity : Env := { envOk with canPublish := fun _ => false }

/-- As `envOk`, but `Particle.publish` answers false and leaves the event `NEW`. -/
def envReject : Env := { envOk with publish := fun _ => (false, Status.NEW) }

/-- A tracked file as `generateTestFiles` records it. -/
def freshEntry (path : String) (size : Nat) : FileEntry :=
  { path := path, size := size, uploaded := false, event := {} }

/-- A filesystem with the files `a` (two bytes) and `b` (one byte). -/
def fsAB : FileSystem :=
  fun p => if p = "a" then some [1, 2] else if p = "b" then some [3] else none

/-- A filesystem with the file `b` only. -/
def fsB : FileSystem :=
  fun p => if p = "b" then some [3] else none

/-- Two fresh tracked files `a` and `b` over the filesystem `fs`. -/
def twoFiles (fs : FileSystem) : State :=
  { files := [freshEntry "a" 2, freshEntry "b" 1]
    fs := fs
    completionMessagePrinted := false
    trace := [] }

/-- A generation without faults whose `k`-th random value is `14337 + k`. -/
def genvPlain : GenEnv :=
  { rand := fun k => 14337 + k
    createFault := fun _ => false
    written := fun _ n => n }

/-- An event built from the two bytes of file `a`, in the given status. -/
def eventA (status : Status) : CloudEvent :=
  { buildEvent (freshEntry "a" 2) [1, 2] with status := status }

/-- File `a` with its event in the given status and file `b` fresh, over the filesystem `fs`. -/
def afterPublish (status : Status) (uploaded : Bool) (fs : FileSystem) : State :=
  { files := [{ path := "a", size := 2, uploaded := uploaded, event := eventA status },
              freshEntry "b" 1]
    fs := fs
    completionMessagePrinted := false
    trace := [] }

/-- As `envOk`, but every `remove` fails. -/
def envNoRemove : Env := { envOk with removeFault := fun _ => true }

/-- A filesystem in which file `a` holds one byte only, and `b` one byte. -/
def fsShort : FileSystem :=
  fun p => if p = "a" then some [1] else if p = "b" then some [3] else none

/-- File `a` tracked with a size of two bytes and file `b` with one byte, both fresh, over a
filesystem where `a` holds one byte only. -/
def shortFirst : State := twoFiles fsShort

/-- A collection whose only file is uploaded; the completion message is not printed yet. -/
def allDone : State :=
  { files := [{ path := "a", size := 2, uploaded := true, event := eventA Status.SENT }]
    fs := fsB
    completionMessagePrinted := false
    trace := [] }

/-- A run over two files: each is published on a tick and then reported `SENT`. -/
def bothDelivered : List Action :=
  [Action.tick envOk, Action.settle 0 Status.SENT, Action.tick envOk,
   Action.settle 1 Status.SENT]

/-- An empty filesystem. -/
def fsEmpty : FileSystem := fun _ => none

/-- Three tracked files over `fsShort`: `c` with an upload in flight, `a` fresh but tracked
with two bytes where the file holds one, and `b` fresh and readable. -/
def mixedThree : State :=
  { files := [{ path := "c", size := 1, uploaded := false,
                event := { buildEvent (freshEntry "c" 1) [7] with status := Status.SENDING } },
              freshEntry "a" 2,
              freshEntry "b" 1]
    fs := fsShort
    completionMessagePrinted := false
    trace := [] }

/-! # Properties -/

/-! ## File sizes -/

theorem fileSize_bounds (r : Int) (hr : 0 ≤ r) :
    1024 ≤ fileSize r ∧ fileSize r ≤ 15360 := by
  have h1 : 0 ≤ Int.tmod r 14337 := Int.tmod_nonneg _ hr
  have h2 : Int.tmod r 14337 < 14337 := Int.tmod_lt_of_pos _ (by norm_num)
  unfold fileSize MIN_FILE_SIZE MAX_FILE_SIZE SIZE_T_MOD
  norm_num
  omega

theorem generateLoop_sizes (genv : GenEnv) (hrand : ∀ k, 0 ≤ genv.rand k)
    (remaining : Nat) : ∀ (i k : Nat) (s : State),
    (∀ entry ∈ s.files, 1024 ≤ entry.size ∧ entry.size ≤ 15360) →
    ∀ entry ∈ (generateLoop genv remaining i k s).files,
      1024 ≤ entry.size ∧ entry.size ≤ 15360 := by
  induction remaining with
  | zero => intro i k s hs; simpa [generateLoop] using hs
  | succ n ih =>
    intro i k s hs
    simp only [generateLoop]
    split
    · exact ih _ _ _ hs
    · split
      · exact ih _ _ _ hs
      · apply ih
        intro entry hmem
        simp only [List.mem_append, List.mem_singleton] at hmem
        rcases hmem with hmem | rfl
        · exact hs entry hmem
        · exact fileSize_bounds _ (hrand k)

/-- C2: whatever non-negative values `rand()` returns, every size computed in line 111 and
every file recorded by `generateTestFiles` (whatever the filesystem answers) has a size
between `MIN_FILE_SIZE` (1024) and `MAX_FILE_SIZE` (15360), both included, and strictly below
`MAX_EVENT_SIZE` (16384). -/
theorem generated_size_in_range (numFiles : Nat) (genv : GenEnv) (fs : FileSystem)
    (hrand : ∀ k, 0 ≤ genv.rand k) :
    (∀ k, MIN_FILE_SIZE ≤ (fileSize (genv.rand k) : Int) ∧
      (fileSize (genv.rand k) : Int) ≤ MAX_FILE_SIZE ∧
      fileSize (genv.rand k) < MAX_EVENT_SIZE) ∧
    ∀ entry ∈ (generateTestFiles numFiles genv (initial fs)).files,
      MIN_FILE_SIZE ≤ (entry.size : Int) ∧ (entry.size : Int) ≤ MAX_FILE_SIZE ∧
      1024 ≤ entry.size ∧ entry.size ≤ 15360 ∧ entry.size < MAX_EVENT_SIZE := by
  constructor
  · intro k
    have h := fileSize_bounds (genv.rand k) (hrand k)
    unfold MIN_FILE_SIZE MAX_FILE_SIZE MAX_EVENT_SIZE
    omega
  · intro entry hmem
    simp only [generateTestFiles] at hmem
    have h := generateLoop_sizes genv hrand numFiles 0 0 _
      (fun e he => by simp [initial] at he) entry hmem
    unfold MIN_FILE_SIZE MAX_FILE_SIZE MAX_EVENT_SIZE
    omega

theorem generateRandomContent_length (rand : Nat → Int) (k size : Nat) :
    (generateRandomContent rand k size).length = size := by
  simp [generateRandomContent, String.length]

theorem fileSize_lt (r : Int) : (fileSize r : Int) < SIZE_T_MOD := by
  unfold fileSize SIZE_T_MOD
  have h := Int.emod_lt_of_pos (MIN_FILE_SIZE + Int.tmod r (MAX_FILE_SIZE - MIN_FILE_SIZE + 1))
    (show (0 : Int) < 2 ^ 32 by norm_num)
  have h0 := Int.emod_nonneg (MIN_FILE_SIZE + Int.tmod r (MAX_FILE_SIZE - MIN_FILE_SIZE + 1))
    (show (2 : Int) ^ 32 ≠ 0 by norm_num)
  omega

/-- When no file creation fails and every `write` writes all it is given, each iteration of the
loop of `generateTestFiles` records one file. -/
theorem generateLoop_all_recorded (genv : GenEnv)
    (hcreate : ∀ p, genv.createFault p = false) (hwrite : ∀ p n, genv.written p n = n)
    (remaining : Nat) : ∀ (i k : Nat) (s : State),
    (generateLoop genv remaining i k s).files.length = s.files.length + remaining := by
  induction remaining with
  | zero => intro i k s; simp [generateLoop]
  | succ n ih =>
    intro i k s
    have hlt := fileSize_lt (genv.rand k)
    have hback : ((fileSize (genv.rand k) : Int) % SIZE_T_MOD).toNat =
        fileSize (genv.rand k) := by
      rw [Int.emod_eq_of_lt (Int.ofNat_nonneg _) hlt]
      exact Int.toNat_ofNat _
    simp only [generateLoop, hcreate, hwrite, generateRandomContent_length, hback,
      bne_self_eq_false, Bool.false_eq_true, if_false]
    rw [ih]
    simp only [List.length_append, List.length_singleton]
    omega

theorem generated_size_in_range_witness :
    ((∀ k, 0 ≤ genvPlain.rand k) ∧
      (generateTestFiles NUM_FILES genvPlain (initial fsEmpty)).files.length = 1 ∧
      fileSize (genvPlain.rand 0) = 1024 ∧ fileSize (genvPlain.rand 1) = 1025 ∧
      fileSize 14336 = 15360) ∧
    ((∀ k, MIN_FILE_SIZE ≤ (fileSize (genvPlain.rand k) : Int) ∧
      (fileSize (genvPlain.rand k) : Int) ≤ MAX_FILE_SIZE ∧
      fileSize (genvPlain.rand k) < MAX_EVENT_SIZE) ∧
    ∀ entry ∈ (generateTestFiles NUM_FILES genvPlain (initial fsEmpty)).files,
      MIN_FILE_SIZE ≤ (entry.size : Int) ∧ (entry.size : Int) ≤ MAX_FILE_SIZE ∧
      1024 ≤ entry.size ∧ entry.size ≤ 15360 ∧ entry.size < MAX_EVENT_SIZE) :=
  ⟨⟨fun k => by simp only [genvPlain]; omega,
    by
      simp only [generateTestFiles]
      rw [generateLoop_all_recorded genvPlain (fun _ => rfl) (fun _ _ => rfl)]
      rfl,
    by decide, by decide, by decide⟩,
   generated_size_in_range NUM_FILES genvPlain fsEmpty
     (fun k => by simp only [genvPlain]; omega)⟩

/-! ## The guards of uploadNextFile -/

theorem uploadNextFile_refused (env : Env) (s : State)
    (h : env.connected = false ∨ env.canPublish MAX_EVENT_SIZE = false) :
    uploadNextFile env s = (false, s) := by
  unfold uploadNextFile
  rcases h with h | h
  · simp [h]
  · simp [h]

/-- C6: when the transport is not connected or `canPublish(MAX_EVENT_SIZE)` answers false,
`uploadNextFile` returns false and hands back the state it was given: no entry changes
(path, size, uploaded, event), the filesystem is untouched and nothing is added to the trace
(no file is opened or read, no event is built or published). -/
theorem uploadNextFile_not_admitted (env : Env) (s : State)
    (h : env.connected = false ∨ env.canPublish MAX_EVENT_SIZE = false) :
    uploadNextFile env s = (false, s) :=
  uploadNextFile_refused env s h

theorem uploadNextFile_not_admitted_witness :
    (envNoCapacity.connected = false ∨ envNoCapacity.canPublish MAX_EVENT_SIZE = false) ∧
    uploadNextFile envNoCapacity (twoFiles fsAB) = (false, twoFiles fsAB) :=
  ⟨Or.inr rfl, uploadNextFile_not_admitted envNoCapacity (twoFiles fsAB) (Or.inr rfl)⟩

/-! ## What the two loops touch -/

theorem uploadBody_skipped (env : Env) (fs : FileSystem) (i : Nat) (entry : FileEntry)
    (h : skipped entry = true) :
    uploadBody env fs i entry = { flow := none, entry := entry, effects := [] } := by
  simp [uploadBody, h]

theorem uploadBody_effect (env : Env) (fs : FileSystem) (i : Nat) (entry : FileEntry)
    (eff : Effect) (h : eff ∈ (uploadBody env fs i entry).effects) :
    skipped entry = false ∧ ∀ j, eff.entryIndex = some j → j = i := by
  simp only [uploadBody] at h
  split at h
  · simp at h
  · rename_i hskip
    refine ⟨by simpa using hskip, ?_⟩
    intro j hj
    split at h
    · simp only [List.mem_cons, List.mem_singleton, List.not_mem_nil, or_false] at h
      rcases h with rfl | rfl <;> simp_all [Effect.entryIndex]
    · split at h
      · simp only [List.mem_cons, List.mem_singleton, List.not_mem_nil, or_false] at h
        rcases h with rfl | rfl | rfl <;> simp_all [Effect.entryIndex]
      · split at h
        · simp only [List.mem_cons, List.mem_singleton, List.not_mem_nil, or_false] at h
          rcases h with rfl | rfl | rfl | rfl <;> simp_all [Effect.entryIndex]
        · simp only [List.mem_append, List.mem_cons, List.mem_singleton,
            List.not_mem_nil, or_false] at h
          rcases h with (rfl | rfl | rfl | rfl | rfl) | h
          · simp_all [Effect.entryIndex]
          · simp_all [Effect.entryIndex]
          · simp_all [Effect.entryIndex]
          · simp_all [Effect.entryIndex]
          · simp_all [Effect.entryIndex]
          · split at h
            · simp at h
            · simp only [List.mem_singleton] at h
              subst h
              simp [Effect.entryIndex] at hj

theorem uploadLoop_length (env : Env) (fs : FileSystem) (files : List FileEntry) :
    ∀ k, (uploadLoop env fs k files).files.length = files.length := by
  induction files with
  | nil => intro k; simp [uploadLoop]
  | cons entry rest ih =>
    intro k
    simp only [uploadLoop]
    split
    · simp [ih]
    · simp

theorem uploadLoop_effect_index (env : Env) (fs : FileSystem) (files : List FileEntry) :
    ∀ (k j : Nat) (eff : Effect), eff ∈ (uploadLoop env fs k files).effects →
      eff.entryIndex = some j → k ≤ j := by
  induction files with
  | nil => intro k j eff h; simp [uploadLoop] at h
  | cons head rest ih =>
    intro k j eff h hj
    simp only [uploadLoop] at h
    split at h
    · simp only [List.mem_append] at h
      rcases h with h | h
      · exact le_of_eq ((uploadBody_effect env fs k head eff h).2 j hj).symm
      · exact Nat.le_of_succ_le (ih (k + 1) j eff h hj)
    · exact le_of_eq ((uploadBody_effect env fs k head eff h).2 j hj).symm

/-- Entry `i` of the collection after the loop, and the calls made for it: either the body of
the loop ran for it (`visited`), or the loop returned earlier and it is as before. -/
theorem uploadLoop_at (env : Env) (fs : FileSystem) (files : List FileEntry) :
    ∀ (k i : Nat) (entry : FileEntry), files[i]? = some entry →
      ∃ visited : Bool,
        (uploadLoop env fs k files).files[i]? =
          some (if visited then (uploadBody env fs (k + i) entry).entry else entry) ∧
        (∀ eff ∈ (uploadLoop env fs k files).effects, eff.entryIndex = some (k + i) →
          visited = true ∧ eff ∈ (uploadBody env fs (k + i) entry).effects) ∧
        (visited = true → ∀ eff ∈ (uploadBody env fs (k + i) entry).effects,
          eff ∈ (uploadLoop env fs k files).effects) := by
  induction files with
  | nil => intro k i entry h; simp at h
  | cons head rest ih =>
    intro k i entry h
    cases i with
    | zero =>
      simp only [List.getElem?_cons_zero, Option.some.injEq] at h
      subst h
      refine ⟨true, ?_, ?_, ?_⟩
      · simp only [uploadLoop]
        split <;> simp
      · intro eff hmem hidx
        refine ⟨rfl, ?_⟩
        simp only [uploadLoop] at hmem
        split at hmem
        · simp only [List.mem_append] at hmem
          rcases hmem with hmem | hmem
          · exact hmem
          · have := uploadLoop_effect_index env fs rest (k + 1) (k + 0) eff hmem hidx
            omega
        · exact hmem
      · intro _ eff hmem
        simp only [uploadLoop]
        split
        · simp only [List.mem_append]; exact Or.inl hmem
        · exact hmem
    | succ i =>
      simp only [List.getElem?_cons_succ] at h
      have hidx : k + (i + 1) = k + 1 + i := by omega
      simp only [uploadLoop]
      split
      · obtain ⟨visited, h1, h2, h3⟩ := ih (k + 1) i entry h
        refine ⟨visited, ?_, ?_, ?_⟩
        · simpa [hidx] using h1
        · intro eff hmem hj
          simp only [List.mem_append] at hmem
          rcases hmem with hmem | hmem
          · have := (uploadBody_effect env fs k head eff hmem).2 _ hj
            omega
          · rw [hidx] at hj ⊢
            exact h2 eff hmem hj
        · intro hv eff hmem
          simp only [List.mem_append]
          rw [hidx] at hmem
          exact Or.inr (h3 hv eff hmem)
      · refine ⟨false, ?_, ?_, ?_⟩
        · simpa using h
        · intro eff hmem hj
          have := (uploadBody_effect env fs k head eff hmem).2 _ hj
          omega
        · intro hv; cases hv

theorem processBody_entry (env : Env) (fs : FileSystem) (i : Nat) (entry : FileEntry) :
    (processBody env fs i entry).1 = retired entry := by
  unfold processBody retired
  cases hu : entry.uploaded <;> by_cases hs : entry.event.status = Status.SENT <;>
    simp [hu, hs]
  split <;> rfl

theorem processBody_effect (env : Env) (fs : FileSystem) (i : Nat) (entry : FileEntry)
    (eff : Effect) (h : eff ∈ (processBody env fs i entry).2.2) :
    ∀ j, eff.entryIndex = some j →
      j = i ∧ entry.uploaded = false ∧ entry.event.status = Status.SENT ∧
      eff = Effect.remove i entry.path (removeOk env fs entry.path) := by
  intro j hj
  unfold processBody at h
  cases hu : entry.uploaded <;> by_cases hs : entry.event.status = Status.SENT <;>
    simp [hu, hs] at h
  · rcases h with rfl | rfl | rfl
    · simp [Effect.entryIndex] at hj
    · simp only [Effect.entryIndex, Option.some.injEq] at hj
      exact ⟨hj.symm, rfl, hs, rfl⟩
    · split at hj <;> simp [Effect.entryIndex] at hj
  · split at h
    · simp only [List.mem_singleton] at h
      subst h
      simp [Effect.entryIndex] at hj
    · simp at h

theorem processBody_absent (env : Env) (fs : FileSystem) (i : Nat) (entry : FileEntry)
    (p : String) (h : fs p = none) : (processBody env fs i entry).2.1 p = none := by
  unfold processBody
  split
  · split
    · simp only []
      split
      · simp only [FileSystem.erase]
        split
        · rfl
        · exact h
      · exact h
    · split <;> exact h
  · exact h

theorem processBody_fs_kept (env : Env) (fs : FileSystem) (i : Nat) (entry : FileEntry)
    (p : String)
    (h : entry.path = p → ¬(entry.uploaded = false ∧ entry.event.status = Status.SENT)) :
    (processBody env fs i entry).2.1 p = fs p := by
  unfold processBody
  split
  · rename_i hu
    split
    · rename_i hs
      simp only []
      split
      · simp only [FileSystem.erase]
        split
        · rename_i hp
          exact absurd ⟨by simpa using hu, hs⟩ (h hp.symm)
        · rfl
      · rfl
    · split <;> rfl
  · rfl

theorem processLoop_files (env : Env) (files : List FileEntry) :
    ∀ (k : Nat) (fs : FileSystem), (processLoop env k files fs).files = files.map retired := by
  induction files with
  | nil => intro k fs; simp [processLoop]
  | cons head rest ih =>
    intro k fs
    simp [processLoop, ih, processBody_entry]

theorem processLoop_effect_index (env : Env) (files : List FileEntry) :
    ∀ (k : Nat) (fs : FileSystem) (j : Nat) (eff : Effect),
      eff ∈ (processLoop env k files fs).effects → eff.entryIndex = some j → k ≤ j := by
  induction files with
  | nil => intro k fs j eff h; simp [processLoop] at h
  | cons head rest ih =>
    intro k fs j eff h hj
    simp only [processLoop, List.mem_append] at h
    rcases h with h | h
    · exact le_of_eq (processBody_effect env fs k head eff h j hj).1.symm
    · exact Nat.le_of_succ_le (ih (k + 1) _ j eff h hj)

theorem processLoop_absent (env : Env) (files : List FileEntry) (p : String) :
    ∀ (k : Nat) (fs : FileSystem), fs p = none → (processLoop env k files fs).fs p = none := by
  induction files with
  | nil => intro k fs h; simpa [processLoop] using h
  | cons head rest ih =>
    intro k fs h
    simp only [processLoop]
    exact ih (k + 1) _ (processBody_absent env fs k head p h)

theorem processLoop_fs_kept (env : Env) (files : List FileEntry) (p : String) :
    ∀ (k : Nat) (fs : FileSystem),
      (∀ entry ∈ files, entry.path = p →
        ¬(entry.uploaded = false ∧ entry.event.status = Status.SENT)) →
      (processLoop env k files fs).fs p = fs p := by
  induction files with
  | nil => intro k fs _; simp [processLoop]
  | cons head rest ih =>
    intro k fs h
    simp only [processLoop]
    rw [ih (k + 1) _ (fun entry hmem => h entry (List.mem_cons_of_mem _ hmem))]
    exact processBody_fs_kept env fs k head p (h head (List.mem_cons_self _ _))

/-- Entry `i` in `processCompletedUploads`: the body of the loop runs for it over some
filesystem `fsi`; the calls recorded for index `i` are the ones of that pass, and a file
absent after that pass is absent at the end. -/
theorem processLoop_at (env : Env) (files : List FileEntry) :
    ∀ (k : Nat) (fs : FileSystem) (i : Nat) (entry : FileEntry), files[i]? = some entry →
      ∃ fsi : FileSystem,
        (∀ eff ∈ (processLoop env k files fs).effects, eff.entryIndex = some (k + i) →
          eff ∈ (processBody env fsi (k + i) entry).2.2) ∧
        (∀ eff ∈ (processBody env fsi (k + i) entry).2.2,
          eff ∈ (processLoop env k files fs).effects) ∧
        (∀ p, (processBody env fsi (k + i) entry).2.1 p = none →
          (processLoop env k files fs).fs p = none) := by
  induction files with
  | nil => intro k fs i entry h; simp at h
  | cons head rest ih =>
    intro k fs i entry h
    cases i with
    | zero =>
      simp only [List.getElem?_cons_zero, Option.some.injEq] at h
      subst h
      refine ⟨fs, ?_, ?_, ?_⟩
      · intro eff hmem hj
        simp only [processLoop, List.mem_append] at hmem
        rcases hmem with hmem | hmem
        · exact hmem
        · have := processLoop_effect_index env rest (k + 1) _ (k + 0) eff hmem hj
          omega
      · intro eff hmem
        simp only [processLoop, List.mem_append]
        exact Or.inl hmem
      · intro p hp
        simp only [processLoop]
        exact processLoop_absent env rest p (k + 1) _ hp
    | succ i =>
      simp only [List.getElem?_cons_succ] at h
      have hidx : k + (i + 1) = k + 1 + i := by omega
      obtain ⟨fsi, h1, h2, h3⟩ := ih (k + 1) (processBody env fs k head).2.1 i entry h
      refine ⟨fsi, ?_, ?_, ?_⟩
      · intro eff hmem hj
        simp only [processLoop, List.mem_append] at hmem
        rw [hidx] at hj ⊢
        rcases hmem with hmem | hmem
        · have := (processBody_effect env fs k head eff hmem _ hj).1
          omega
        · exact h1 eff hmem hj
      · intro eff hmem
        simp only [processLoop, List.mem_append]
        rw [hidx] at hmem
        exact Or.inr (h2 eff hmem)
      · intro p hp
        simp only [processLoop]
        rw [hidx] at hp
        exact h3 p hp

/-! ## Retired entries -/

/-- C3: an entry with `uploaded = true` is frozen.  A call of `uploadNextFile` and a call of
`processCompletedUploads` each leave the entry at its index exactly as it was (path, size,
uploaded flag, event), and record no call made for it: no open, allocation or read of its
file, no event built or published for it, no removal of its file. -/
theorem retired_entry_frozen (env : Env) (s : State) (i : Nat) (entry : FileEntry)
    (hget : s.files[i]? = some entry) (hup : entry.uploaded = true) :
    ((uploadNextFile env s).2.files[i]? = some entry ∧
      ∀ eff ∈ effectsSince s (uploadNextFile env s).2, eff.entryIndex ≠ some i) ∧
    ((processCompletedUploads env s).files[i]? = some entry ∧
      ∀ eff ∈ effectsSince s (processCompletedUploads env s), eff.entryIndex ≠ some i) := by
  have hskip : skipped entry = true := by simp [skipped, hup]
  constructor
  · unfold uploadNextFile
    split
    · simpa [effectsSince] using hget
    · split
      · simpa [effectsSince] using hget
      · obtain ⟨visited, h1, h2, _⟩ := uploadLoop_at env s.fs s.files 0 i entry hget
        rw [uploadBody_skipped env s.fs (0 + i) entry hskip] at h1 h2
        simp only [Nat.zero_add, ite_self] at h1 h2
        refine ⟨h1, ?_⟩
        intro eff hmem hidx
        simp only [effectsSince, List.drop_left] at hmem
        exact absurd (h2 eff hmem hidx).2 (List.not_mem_nil _)
  · constructor
    · simp only [processCompletedUploads, processLoop_files, List.getElem?_map, hget,
        Option.map_some']
      simp [retired, hup]
    · intro eff hmem hidx
      simp only [effectsSince, processCompletedUploads, List.drop_left] at hmem
      obtain ⟨fsi, h1, _, _⟩ := processLoop_at env s.files 0 s.fs i entry hget
      have hb := h1 eff hmem (by simpa using hidx)
      have := (processBody_effect env fsi (0 + i) entry eff hb (0 + i) (by simpa using hidx)).2.1
      rw [hup] at this
      cases this

theorem retired_entry_frozen_witness :
    ((afterPublish Status.SENT true fsB).files[0]? =
        some { path := "a", size := 2, uploaded := true, event := eventA Status.SENT } ∧
      ({ path := "a", size := 2, uploaded := true, event := eventA Status.SENT } :
        FileEntry).uploaded = true) ∧
    (((uploadNextFile envOk (afterPublish Status.SENT true fsB)).2.files[0]? =
        some { path := "a", size := 2, uploaded := true, event := eventA Status.SENT } ∧
      ∀ eff ∈ effectsSince (afterPublish Status.SENT true fsB)
          (uploadNextFile envOk (afterPublish Status.SENT true fsB)).2,
        eff.entryIndex ≠ some 0) ∧
    ((processCompletedUploads envOk (afterPublish Status.SENT true fsB)).files[0]? =
        some { path := "a", size := 2, uploaded := true, event := eventA Status.SENT } ∧
      ∀ eff ∈ effectsSince (afterPublish Status.SENT true fsB)
          (processCompletedUploads envOk (afterPublish Status.SENT true fsB)),
        eff.entryIndex ≠ some 0)) :=
  ⟨⟨rfl, rfl⟩,
   retired_entry_frozen envOk (afterPublish Status.SENT true fsB) 0
     { path := "a", size := 2, uploaded := true, event := eventA Status.SENT } rfl rfl⟩

/-! ## Delivered and failed uploads in processCompletedUploads -/

/-- C4: for an entry that is not uploaded and whose event is `SENT`,
`processCompletedUploads` calls `remove` on the path of the entry and leaves the entry with
`uploaded = true` and nothing else changed, whatever `remove` answers; when that `remove`
succeeded, no file is stored at the path when the function returns. -/
theorem delivered_entry_retired (env : Env) (s : State) (i : Nat) (entry : FileEntry)
    (hget : s.files[i]? = some entry) (hup : entry.uploaded = false)
    (hsent : entry.event.status = Status.SENT) :
    (processCompletedUploads env s).files[i]? = some { entry with uploaded := true } ∧
    (∃ ok, Effect.remove i entry.path ok ∈
      effectsSince s (processCompletedUploads env s)) ∧
    (Effect.remove i entry.path true ∈ effectsSince s (processCompletedUploads env s) →
      (processCompletedUploads env s).fs entry.path = none) := by
  obtain ⟨fsi, h1, h2, h3⟩ := processLoop_at env s.files 0 s.fs i entry hget
  simp only [Nat.zero_add] at h1 h2 h3
  refine ⟨?_, ?_, ?_⟩
  · simp only [processCompletedUploads, processLoop_files, List.getElem?_map, hget,
      Option.map_some']
    simp [retired, hup, hsent]
  · refine ⟨removeOk env fsi entry.path, ?_⟩
    simp only [effectsSince, processCompletedUploads, List.drop_left]
    apply h2
    simp [processBody, hup, hsent]
  · intro hmem
    simp only [effectsSince, processCompletedUploads, List.drop_left] at hmem
    have hb := h1 _ hmem rfl
    have hok := (processBody_effect env fsi i entry _ hb i rfl).2.2.2
    simp only [Effect.remove.injEq, true_and] at hok
    simp only [processCompletedUploads]
    apply h3
    simp [processBody, hup, hsent, ← hok, FileSystem.erase]

theorem delivered_entry_retired_witness :
    ((afterPublish Status.SENT false fsAB).files[0]? =
        some { path := "a", size := 2, uploaded := false, event := eventA Status.SENT } ∧
      ({ path := "a", size := 2, uploaded := false, event := eventA Status.SENT } :
        FileEntry).uploaded = false ∧
      ({ path := "a", size := 2, uploaded := false, event := eventA Status.SENT } :
        FileEntry).event.status = Status.SENT) ∧
    ((processCompletedUploads envOk (afterPublish Status.SENT false fsAB)).files[0]? =
        some { path := "a", size := 2, uploaded := true, event := eventA Status.SENT } ∧
    (∃ ok, Effect.remove 0 "a" ok ∈ effectsSince (afterPublish Status.SENT false fsAB)
      (processCompletedUploads envOk (afterPublish Status.SENT false fsAB))) ∧
    (Effect.remove 0 "a" true ∈ effectsSince (afterPublish Status.SENT false fsAB)
        (processCompletedUploads envOk (afterPublish Status.SENT false fsAB)) →
      (processCompletedUploads envOk (afterPublish Status.SENT false fsAB)).fs "a" = none)) ∧
    (Effect.remove 0 "a" true ∈ effectsSince (afterPublish Status.SENT false fsAB)
        (processCompletedUploads envOk (afterPublish Status.SENT false fsAB)) ∧
      Effect.remove 0 "a" false ∈ effectsSince (afterPublish Status.SENT false fsAB)
        (processCompletedUploads envNoRemove (afterPublish Status.SENT false fsAB)) ∧
      (processCompletedUploads envNoRemove (afterPublish Status.SENT false fsAB)).files[0]? =
        some { path := "a", size := 2, uploaded := true, event := eventA Status.SENT }) :=
  ⟨⟨rfl, rfl, rfl⟩,
   delivered_entry_retired envOk (afterPublish Status.SENT false fsAB) 0
     { path := "a", size := 2, uploaded := false, event := eventA Status.SENT } rfl rfl rfl,
   by decide, by decide,
   (delivered_entry_retired envNoRemove (afterPublish Status.SENT false fsAB) 0
     { path := "a", size := 2, uploaded := false, event := eventA Status.SENT }
     rfl rfl rfl).1⟩

/-! ## One pass through the body of the loop of uploadNextFile -/

theorem uploadBody_flow_none (env : Env) (fs : FileSystem) (i : Nat) (entry : FileEntry) :
    (uploadBody env fs i entry).flow = none ↔ passesOver env fs entry = true := by
  simp only [uploadBody, passesOver]
  by_cases h1 : skipped entry = true
  · simp [h1]
  · by_cases h2 : openOk env fs entry.path = true
    · by_cases h3 : env.allocFault entry.size = true
      · simp [h1, h2, h3]
      · by_cases h4 : readMismatch (readBytes env fs entry.path entry.size) entry.size = true
        · simp [h1, h2, h3, h4]
        · simp [h1, h2, h3, h4]
    · simp [h1, h2]

theorem uploadBody_passed (env : Env) (fs : FileSystem) (i : Nat) (entry : FileEntry)
    (h : passesOver env fs entry = true) :
    ((uploadBody env fs i entry).entry = entry ∨
      (uploadBody env fs i entry).entry = { entry with uploaded := true }) ∧
    skipped (uploadBody env fs i entry).entry = true ∧
    ∀ eff ∈ (uploadBody env fs i entry).effects, eff.isPublish = false := by
  simp only [uploadBody]
  simp only [passesOver] at h
  by_cases h1 : skipped entry = true
  · simp [h1]
  · by_cases h2 : openOk env fs entry.path = true
    · by_cases h3 : env.allocFault entry.size = true
      · simp [h1, h2, h3] at h
      · by_cases h4 : readMismatch (readBytes env fs entry.path entry.size) entry.size = true
        · simp only [h1, h2, h3, h4, if_false, if_true, Bool.not_true, Bool.false_eq_true]
          simp [skipped, Effect.isPublish]
        · simp [h1, h2, h3, h4] at h
    · simp only [h1, h2, if_false, if_true, Bool.not_false]
      simp [skipped, Effect.isPublish]

theorem uploadBody_published (env : Env) (fs : FileSystem) (i : Nat) (entry : FileEntry)
    (h1 : skipped entry = false) (h2 : readable env fs entry = true) :
    uploadBody env fs i entry =
      { flow := some (env.publish
          (buildEvent entry ((readBytes env fs entry.path entry.size).getD []))).1
        entry := { entry with event :=
          { buildEvent entry ((readBytes env fs entry.path entry.size).getD []) with
            status := (env.publish
              (buildEvent entry ((readBytes env fs entry.path entry.size).getD []))).2 } }
        effects :=
          [Effect.openFile i entry.path true,
           Effect.alloc i entry.size true,
           Effect.readFile i entry.path entry.size (readBytes env fs entry.path entry.size),
           Effect.log LogLevel.info "Uploading file: %s (%d bytes) as event: %s"
             [entry.path, toString entry.size, eventName],
           Effect.publish i
             (buildEvent entry ((readBytes env fs entry.path entry.size).getD []))
             (env.publish
               (buildEvent entry ((readBytes env fs entry.path entry.size).getD []))).1] ++
          (if (env.publish
                (buildEvent entry ((readBytes env fs entry.path entry.size).getD []))).1
           then []
           else [Effect.log LogLevel.error "Failed to start publish for file: %s"
                   [entry.path]]) } := by
  simp only [readable, Bool.and_eq_true, Bool.not_eq_true'] at h2
  obtain ⟨⟨h2, h3⟩, h4⟩ := h2
  simp [uploadBody, h1, h2, h3, h4]

theorem uploadBody_stopped (env : Env) (fs : FileSystem) (i : Nat) (entry : FileEntry)
    (h : passesOver env fs entry = false) :
    skipped entry = false ∧
    ((readable env fs entry = false ∧
        uploadBody env fs i entry =
          { flow := some false
            entry := entry
            effects :=
              [Effect.openFile i entry.path true,
               Effect.alloc i entry.size false,
               Effect.log LogLevel.error "Failed to allocate memory for file upload" []] }) ∨
      readable env fs entry = true) := by
  simp only [passesOver, Bool.or_eq_false_iff, Bool.and_eq_false_imp, Bool.not_eq_true',
    Bool.not_eq_false'] at h
  obtain ⟨⟨h1, h2⟩, h3⟩ := h
  refine ⟨h1, ?_⟩
  by_cases h4 : env.allocFault entry.size = true
  · left
    simp [readable, uploadBody, h1, h2, h4]
  · right
    simp only [Bool.not_eq_true] at h4
    simp [readable, h2, h4, h3 h4]

theorem readBytes_full (env : Env) (fs : FileSystem) (path : String) (size : Nat)
    (h : readMismatch (readBytes env fs path size) size = false) :
    readBytes env fs path size = some (((fs path).getD []).take size) := by
  unfold readBytes at h ⊢
  cases hf : env.readFault path with
  | ok => simp
  | error => simp [hf, readMismatch] at h
  | short n =>
    simp only [hf, readMismatch, List.length_take, bne_eq_false_iff_eq] at h
    have : min n size = size := by omega
    simp [this]

theorem uploadBody_publish_count (env : Env) (fs : FileSystem) (i : Nat) (entry : FileEntry) :
    (uploadBody env fs i entry).effects.countP Effect.isPublish ≤ 1 := by
  by_cases hp : passesOver env fs entry = true
  · have h := (uploadBody_passed env fs i entry hp).2.2
    have : (uploadBody env fs i entry).effects.countP Effect.isPublish = 0 := by
      rw [List.countP_eq_zero]
      intro eff hmem
      simp [h eff hmem]
    omega
  · simp only [Bool.not_eq_true] at hp
    obtain ⟨h1, h2 | h2⟩ := uploadBody_stopped env fs i entry hp
    · rw [h2.2]
      simp [List.countP_cons, Effect.isPublish]
    · rw [uploadBody_published env fs i entry h1 h2]
      cases hb : (env.publish
          (buildEvent entry ((readBytes env fs entry.path entry.size).getD []))).1 <;>
        simp [List.countP_cons, Effect.isPublish]

theorem uploadBody_published_inv (env : Env) (fs : FileSystem) (i : Nat) (entry : FileEntry)
    (j : Nat) (ev : CloudEvent) (ok : Bool)
    (h : Effect.publish j ev ok ∈ (uploadBody env fs i entry).effects) :
    skipped entry = false ∧ readable env fs entry = true ∧
    ev = buildEvent entry ((readBytes env fs entry.path entry.size).getD []) ∧
    ok = (env.publish ev).1 := by
  by_cases hp : passesOver env fs entry = true
  · have := (uploadBody_passed env fs i entry hp).2.2 _ h
    simp [Effect.isPublish] at this
  · simp only [Bool.not_eq_true] at hp
    obtain ⟨h1, h2 | h2⟩ := uploadBody_stopped env fs i entry hp
    · rw [h2.2] at h
      simp at h
    · rw [uploadBody_published env fs i entry h1 h2] at h
      simp only [List.mem_append, List.mem_cons, List.mem_singleton, List.not_mem_nil,
        or_false] at h
      rcases h with (h | h | h | h | h) | h
      · cases h
      · cases h
      · cases h
      · cases h
      · cases h
        exact ⟨h1, h2, rfl, rfl⟩
      · split at h
        · simp at h
        · simp only [List.mem_singleton] at h
          cases h

theorem uploadBody_failed (env : Env) (fs : FileSystem) (i : Nat) (entry : FileEntry)
    (h : (∃ j p, Effect.openFile j p false ∈ (uploadBody env fs i entry).effects) ∨
      ∃ j p got, Effect.readFile j p entry.size got ∈ (uploadBody env fs i entry).effects ∧
        readMismatch got entry.size = true) :
    passesOver env fs entry = true ∧
    (uploadBody env fs i entry).entry = { entry with uploaded := true } := by
  by_cases hp : passesOver env fs entry = true
  · refine ⟨hp, ?_⟩
    have hskip : skipped entry = false := by
      rcases h with ⟨j, p, h⟩ | ⟨j, p, got, h, _⟩
      · exact (uploadBody_effect env fs i entry _ h).1
      · exact (uploadBody_effect env fs i entry _ h).1
    simp only [passesOver, hskip, Bool.false_or] at hp
    simp only [uploadBody, hskip]
    by_cases h2 : openOk env fs entry.path = true
    · simp only [h2, Bool.not_true, Bool.false_or, Bool.and_eq_true, Bool.not_eq_true'] at hp
      simp [h2, hp.1, hp.2]
    · simp [h2]
  · exfalso
    simp only [Bool.not_eq_true] at hp
    obtain ⟨h1, h2 | h2⟩ := uploadBody_stopped env fs i entry hp
    · rw [h2.2] at h
      simp at h
    · rw [uploadBody_published env fs i entry h1 h2] at h
      simp only [readable, Bool.and_eq_true, Bool.not_eq_true'] at h2
      rcases h with ⟨j, p, h⟩ | ⟨j, p, got, h, hm⟩
      · simp only [List.mem_append, List.mem_cons, List.mem_singleton, List.not_mem_nil,
          or_false] at h
        rcases h with (h | h | h | h | h) | h
        · cases h
        · cases h
        · cases h
        · cases h
        · cases h
        · split at h
          · simp at h
          · simp only [List.mem_singleton] at h
            cases h
      · simp only [List.mem_append, List.mem_cons, List.mem_singleton, List.not_mem_nil,
          or_false] at h
        rcases h with (h | h | h | h | h) | h
        · cases h
        · cases h
        · cases h
          rw [h2.2] at hm
          cases hm
        · cases h
        · cases h
        · split at h
          · simp at h
          · simp only [List.mem_singleton] at h
            cases h

/-! ## The loop of uploadNextFile, entry by entry -/

theorem uploadLoop_reached (env : Env) (fs : FileSystem) (files : List FileEntry) :
    ∀ (k i : Nat) (entry : FileEntry), files[i]? = some entry →
      (∀ j e, j < i → files[j]? = some e → passesOver env fs e = true) →
      (uploadLoop env fs k files).files[i]? = some (uploadBody env fs (k + i) entry).entry ∧
      (∀ eff ∈ (uploadBody env fs (k + i) entry).effects,
        eff ∈ (uploadLoop env fs k files).effects) ∧
      (∀ b, (uploadBody env fs (k + i) entry).flow = some b →
        (uploadLoop env fs k files).result = b ∧
        (∀ j, i < j → (uploadLoop env fs k files).files[j]? = files[j]?) ∧
        (∀ eff ∈ (uploadLoop env fs k files).effects, ∀ j,
          eff.entryIndex = some j → j ≤ k + i)) ∧
      (∀ j e, j < i → files[j]? = some e →
        (uploadLoop env fs k files).files[j]? = some (uploadBody env fs (k + j) e).entry) := by
  induction files with
  | nil => intro k i entry h; simp at h
  | cons head rest ih =>
    intro k i entry h hpre
    cases i with
    | zero =>
      simp only [List.getElem?_cons_zero, Option.some.injEq] at h
      subst h
      refine ⟨?_, ?_, ?_, ?_⟩
      · simp only [uploadLoop]
        split <;> simp
      · intro eff hmem
        simp only [uploadLoop]
        split
        · simp only [List.mem_append]; exact Or.inl hmem
        · exact hmem
      · intro b hb
        simp only [Nat.add_zero] at hb
        simp only [uploadLoop, hb]
        refine ⟨trivial, ?_, ?_⟩
        · intro j hj
          obtain ⟨j, rfl⟩ : ∃ m, j = m + 1 := ⟨j - 1, by omega⟩
          simp
        · intro eff hmem j hj
          have := (uploadBody_effect env fs k head eff hmem).2 j hj
          omega
      · intro j e hj
        omega
    | succ i =>
      simp only [List.getElem?_cons_succ] at h
      have hidx : k + (i + 1) = k + 1 + i := by omega
      have hhead : (uploadBody env fs k head).flow = none :=
        (uploadBody_flow_none env fs k head).2 (hpre 0 head (by omega) (by simp))
      obtain ⟨h1, h2, h3, h4⟩ := ih (k + 1) i entry h
        (fun j e hj hget => hpre (j + 1) e (by omega) (by simpa using hget))
      rw [hidx]
      simp only [uploadLoop, hhead]
      refine ⟨by simpa using h1, ?_, ?_, ?_⟩
      · intro eff hmem
        simp only [List.mem_append]
        exact Or.inr (h2 eff hmem)
      · intro b hb
        obtain ⟨r1, r2, r3⟩ := h3 b hb
        refine ⟨r1, ?_, ?_⟩
        · intro j hj
          obtain ⟨j, rfl⟩ : ∃ m, j = m + 1 := ⟨j - 1, by omega⟩
          simpa using r2 j (by omega)
        · intro eff hmem j hj
          simp only [List.mem_append] at hmem
          rcases hmem with hmem | hmem
          · have := (uploadBody_effect env fs k head eff hmem).2 j hj
            omega
          · exact r3 eff hmem j hj
      · intro j e hj hget
        cases j with
        | zero =>
          simp only [List.getElem?_cons_zero, Option.some.injEq] at hget
          subst hget
          simp
        | succ j =>
          simp only [List.getElem?_cons_succ] at hget
          have := h4 j e (by omega) hget
          have hjdx : k + (j + 1) = k + 1 + j := by omega
          rw [hjdx]
          simpa using this

theorem uploadLoop_visited (env : Env) (fs : FileSystem) (files : List FileEntry) :
    ∀ (k i : Nat) (eff : Effect), eff ∈ (uploadLoop env fs k files).effects →
      eff.entryIndex = some (k + i) →
      ∀ j e, j < i → files[j]? = some e → passesOver env fs e = true := by
  induction files with
  | nil => intro k i eff h; simp [uploadLoop] at h
  | cons head rest ih =>
    intro k i eff hmem hidx j e hj hget
    cases i with
    | zero => omega
    | succ i =>
      have hne : ¬ eff ∈ (uploadBody env fs k head).effects := by
        intro hb
        have := (uploadBody_effect env fs k head eff hb).2 _ hidx
        omega
      simp only [uploadLoop] at hmem
      split at hmem
      · rename_i hflow
        simp only [List.mem_append] at hmem
        rcases hmem with hmem | hmem
        · exact absurd hmem hne
        · cases j with
          | zero =>
            simp only [List.getElem?_cons_zero, Option.some.injEq] at hget
            rw [← hget]
            exact (uploadBody_flow_none env fs k head).1 hflow
          | succ j =>
            simp only [List.getElem?_cons_succ] at hget
            have hidx2 : eff.entryIndex = some (k + 1 + i) := by
              rw [hidx]; congr 1; omega
            exact ih (k + 1) i eff hmem hidx2 j e (by omega) hget
      · exact absurd hmem hne

theorem uploadLoop_publish_count (env : Env) (fs : FileSystem) (files : List FileEntry) :
    ∀ k, (uploadLoop env fs k files).effects.countP Effect.isPublish ≤ 1 := by
  induction files with
  | nil => intro k; simp [uploadLoop]
  | cons head rest ih =>
    intro k
    simp only [uploadLoop]
    split
    · rename_i hflow
      have hp := (uploadBody_flow_none env fs k head).1 hflow
      have h := (uploadBody_passed env fs k head hp).2.2
      have : (uploadBody env fs k head).effects.countP Effect.isPublish = 0 := by
        rw [List.countP_eq_zero]
        intro eff hmem
        simp [h eff hmem]
      simp only [List.countP_append, this, Nat.zero_add]
      exact ih (k + 1)
    · exact uploadBody_publish_count env fs k head

theorem uploadLoop_true (env : Env) (fs : FileSystem) (files : List FileEntry) :
    ∀ k, (uploadLoop env fs k files).result = true →
      ∃ j ev, Effect.publish j ev true ∈ (uploadLoop env fs k files).effects := by
  induction files with
  | nil => intro k h; simp [uploadLoop] at h
  | cons head rest ih =>
    intro k h
    simp only [uploadLoop] at h ⊢
    split at h
    · rename_i hflow
      obtain ⟨j, ev, hmem⟩ := ih (k + 1) h
      simp only [hflow, List.mem_append]
      exact ⟨j, ev, Or.inr hmem⟩
    · rename_i b hflow
      simp only at h
      subst h
      simp only [hflow]
      have hp : passesOver env fs head = false := by
        cases hpo : passesOver env fs head with
        | false => rfl
        | true =>
          rw [(uploadBody_flow_none env fs k head).2 hpo] at hflow
          cases hflow
      obtain ⟨h1, h2 | h2⟩ := uploadBody_stopped env fs k head hp
      · rw [h2.2] at hflow
        simp at hflow
      · rw [uploadBody_published env fs k head h1 h2] at hflow ⊢
        simp only [Option.some.injEq] at hflow
        refine ⟨k, buildEvent head ((readBytes env fs head.path head.size).getD []), ?_⟩
        simp only [List.mem_append, List.mem_cons]
        left; right; right; right; right; left
        rw [hflow]

/-! ## uploadNextFile as a whole -/

theorem uploadNextFile_admitted (env : Env) (s : State) (h : admits env = true) :
    uploadNextFile env s =
      ((uploadLoop env s.fs 0 s.files).result,
       { s with files := (uploadLoop env s.fs 0 s.files).files
                trace := s.trace ++ (uploadLoop env s.fs 0 s.files).effects }) := by
  simp only [admits, Bool.and_eq_true] at h
  simp [uploadNextFile, h.1, h.2]

theorem uploadNextFile_effects (env : Env) (s : State) (eff : Effect)
    (h : eff ∈ effectsSince s (uploadNextFile env s).2) :
    admits env = true ∧ eff ∈ (uploadLoop env s.fs 0 s.files).effects := by
  cases ha : admits env with
  | true =>
    rw [uploadNextFile_admitted env s ha] at h
    simp only [effectsSince, List.drop_left] at h
    exact ⟨rfl, h⟩
  | false =>
    have hna : env.connected = false ∨ env.canPublish MAX_EVENT_SIZE = false := by
      simp only [admits, Bool.and_eq_false_iff] at ha
      exact ha
    rw [uploadNextFile_refused env s hna] at h
    simp [effectsSince] at h

/-- C7 (amended): when a call of `uploadNextFile` reaches an entry whose file does not open,
or whose read does not return `size` bytes, that entry is left with `uploaded = true` and
nothing else changed, and the call builds and publishes no event for that entry.  (The loop
then goes on to the following entries.) -/
theorem unreadable_entry_skipped (env : Env) (s : State) (i : Nat) (entry : FileEntry)
    (hget : s.files[i]? = some entry)
    (hfail : Effect.openFile i entry.path false ∈ effectsSince s (uploadNextFile env s).2 ∨
      ∃ got, Effect.readFile i entry.path entry.size got ∈
          effectsSince s (uploadNextFile env s).2 ∧
        readMismatch got entry.size = true) :
    (uploadNextFile env s).2.files[i]? = some { entry with uploaded := true } ∧
    ∀ ev ok, ¬ Effect.publish i ev ok ∈ effectsSince s (uploadNextFile env s).2 := by
  obtain ⟨visited, h1, h2, h3⟩ := uploadLoop_at env s.fs s.files 0 i entry hget
  simp only [Nat.zero_add] at h1 h2 h3
  have hbody : visited = true ∧
      ((∃ j p, Effect.openFile j p false ∈ (uploadBody env s.fs i entry).effects) ∨
        ∃ j p got, Effect.readFile j p entry.size got ∈ (uploadBody env s.fs i entry).effects ∧
          readMismatch got entry.size = true) := by
    rcases hfail with h | ⟨got, h, hm⟩
    · have := h2 _ (uploadNextFile_effects env s _ h).2 rfl
      exact ⟨this.1, Or.inl ⟨i, entry.path, this.2⟩⟩
    · have := h2 _ (uploadNextFile_effects env s _ h).2 rfl
      exact ⟨this.1, Or.inr ⟨i, entry.path, got, this.2, hm⟩⟩
  obtain ⟨hv, hb⟩ := hbody
  obtain ⟨hpass, hentry⟩ := uploadBody_failed env s.fs i entry hb
  have hadm : admits env = true := by
    rcases hfail with h | ⟨got, h, _⟩
    · exact (uploadNextFile_effects env s _ h).1
    · exact (uploadNextFile_effects env s _ h).1
  constructor
  · rw [uploadNextFile_admitted env s hadm]
    simp only [h1, hv, if_true, hentry]
  · intro ev ok hmem
    have hin := (h2 _ (uploadNextFile_effects env s _ hmem).2 rfl).2
    have := (uploadBody_passed env s.fs i entry hpass).2.2 _ hin
    simp [Effect.isPublish] at this

theorem unreadable_entry_skipped_witness :
    ((twoFiles fsB).files[0]? = some (freshEntry "a" 2) ∧
      (Effect.openFile 0 (freshEntry "a" 2).path false ∈
          effectsSince (twoFiles fsB) (uploadNextFile envOk (twoFiles fsB)).2 ∨
        ∃ got, Effect.readFile 0 (freshEntry "a" 2).path (freshEntry "a" 2).size got ∈
            effectsSince (twoFiles fsB) (uploadNextFile envOk (twoFiles fsB)).2 ∧
          readMismatch got (freshEntry "a" 2).size = true)) ∧
    ((uploadNextFile envOk (twoFiles fsB)).2.files[0]? =
        some { freshEntry "a" 2 with uploaded := true } ∧
      ∀ ev ok, ¬ Effect.publish 0 ev ok ∈
        effectsSince (twoFiles fsB) (uploadNextFile envOk (twoFiles fsB)).2) :=
  ⟨⟨rfl, Or.inl (by decide)⟩,
   unreadable_entry_skipped envOk (twoFiles fsB) 0 (freshEntry "a" 2) rfl
     (Or.inl (by decide))⟩

/-- C7 as stated fails: with two fresh entries of which the first has no file, one call of
`uploadNextFile` fails to open the file of entry 0, marks entry 0 uploaded, and in the same
call publishes the event of entry 1 and returns true. -/
theorem unreadable_entry_other_published :
    Effect.openFile 0 "a" false ∈
      effectsSince (twoFiles fsB) (uploadNextFile envOk (twoFiles fsB)).2 ∧
    (uploadNextFile envOk (twoFiles fsB)).2.files[0]? =
      some { freshEntry "a" 2 with uploaded := true } ∧
    Effect.publish 1 (buildEvent (freshEntry "b" 1) [3]) true ∈
      effectsSince (twoFiles fsB) (uploadNextFile envOk (twoFiles fsB)).2 ∧
    (uploadNextFile envOk (twoFiles fsB)).1 = true := by
  decide

theorem uploadLoop_effect_entry (env : Env) (fs : FileSystem) (files : List FileEntry) :
    ∀ (k j : Nat) (eff : Effect), eff ∈ (uploadLoop env fs k files).effects →
      eff.entryIndex = some j → ∃ entry, files[j - k]? = some entry := by
  induction files with
  | nil => intro k j eff h; simp [uploadLoop] at h
  | cons head rest ih =>
    intro k j eff h hj
    have here : eff ∈ (uploadBody env fs k head).effects →
        ∃ entry, (head :: rest)[j - k]? = some entry := by
      intro hb
      have := (uploadBody_effect env fs k head eff hb).2 j hj
      subst this
      exact ⟨head, by simp⟩
    simp only [uploadLoop] at h
    split at h
    · simp only [List.mem_append] at h
      rcases h with h | h
      · exact here h
      · obtain ⟨entry, hget⟩ := ih (k + 1) j eff h hj
        have hle := uploadLoop_effect_index env fs rest (k + 1) j eff h hj
        refine ⟨entry, ?_⟩
        have : j - k = (j - (k + 1)) + 1 := by omega
        rw [this, List.getElem?_cons_succ]
        exact hget
    · exact here h

/-- What is known of a call in which an event was passed to `publish` for entry `i`. -/
theorem uploadNextFile_published (env : Env) (s : State) (i : Nat) (ev : CloudEvent)
    (ok : Bool) (h : Effect.publish i ev ok ∈ effectsSince s (uploadNextFile env s).2) :
    ∃ entry, s.files[i]? = some entry ∧ skipped entry = false ∧
      readable env s.fs entry = true ∧
      ev = buildEvent entry (((s.fs entry.path).getD []).take entry.size) ∧
      ok = (env.publish ev).1 ∧
      (uploadNextFile env s).1 = ok ∧
      (uploadNextFile env s).2.files[i]? =
        some { entry with event := { ev with status := (env.publish ev).2 } } ∧
      (∀ j, i < j → (uploadNextFile env s).2.files[j]? = s.files[j]?) ∧
      (∀ j e, j < i → s.files[j]? = some e →
        passesOver env s.fs e = true ∧
        (uploadNextFile env s).2.files[j]? = some (uploadBody env s.fs j e).entry) ∧
      (∀ eff ∈ effectsSince s (uploadNextFile env s).2, ∀ j,
        eff.entryIndex = some j → j ≤ i) ∧
      (∀ j e, j < i → (uploadNextFile env s).2.files[j]? = some e → skipped e = true) := by
  obtain ⟨hadm, hmem⟩ := uploadNextFile_effects env s _ h
  obtain ⟨entry, hget⟩ := uploadLoop_effect_entry env s.fs s.files 0 i _ hmem rfl
  simp only [Nat.sub_zero] at hget
  obtain ⟨visited, h1, h2, _⟩ := uploadLoop_at env s.fs s.files 0 i entry hget
  simp only [Nat.zero_add] at h1 h2
  obtain ⟨_, hbody⟩ := h2 _ hmem rfl
  obtain ⟨hskip, hread, hev, hok⟩ := uploadBody_published_inv env s.fs i entry i ev ok hbody
  have hpre := uploadLoop_visited env s.fs s.files 0 i _ hmem (by simp [Effect.entryIndex])
  obtain ⟨r1, _, r3, r4⟩ := uploadLoop_reached env s.fs s.files 0 i entry hget hpre
  simp only [Nat.zero_add] at r1 r3 r4
  have hfull : readBytes env s.fs entry.path entry.size =
      some (((s.fs entry.path).getD []).take entry.size) := by
    apply readBytes_full
    simp only [readable, Bool.and_eq_true, Bool.not_eq_true'] at hread
    exact hread.2
  have hbeq := uploadBody_published env s.fs i entry hskip hread
  rw [← hev, ← hok] at hbeq
  obtain ⟨q1, q2, q3⟩ := r3 ok (by rw [hbeq])
  refine ⟨entry, hget, hskip, hread, ?_, hok, ?_, ?_, ?_, ?_, ?_, ?_⟩
  · rw [hev, hfull]; rfl
  · rw [uploadNextFile_admitted env s hadm]; exact q1
  · rw [uploadNextFile_admitted env s hadm]
    simp only [r1, hbeq]
  · intro j hj
    rw [uploadNextFile_admitted env s hadm]
    exact q2 j hj
  · intro j e hj hg
    rw [uploadNextFile_admitted env s hadm]
    exact ⟨hpre j e hj hg, r4 j e hj hg⟩
  · intro eff hm j hj
    exact q3 eff (uploadNextFile_effects env s _ hm).2 j hj
  · intro j e hj hg
    rw [uploadNextFile_admitted env s hadm] at hg
    simp only at hg
    have hjlen : j < s.files.length := by
      rw [← uploadLoop_length env s.fs s.files 0]
      exact (List.getElem?_eq_some_iff.1 hg).1
    rw [r4 j s.files[j] hj (List.getElem?_eq_getElem hjlen)] at hg
    simp only [Nat.zero_add, Option.some.injEq] at hg
    rw [← hg]
    exact (uploadBody_passed env s.fs j _
      (hpre j s.files[j] hj (List.getElem?_eq_getElem hjlen))).2.1

/-- An entry the loop goes past is either skipped and left as it is, or a candidate whose
file did not open or was not read in full, and then marked uploaded. -/
theorem uploadBody_passed_cases (env : Env) (fs : FileSystem) (i : Nat) (entry : FileEntry)
    (h : passesOver env fs entry = true) :
    (skipped entry = true ∧ (uploadBody env fs i entry).entry = entry) ∨
    (skipped entry = false ∧
      (openOk env fs entry.path = false ∨
        readMismatch (readBytes env fs entry.path entry.size) entry.size = true) ∧
      (uploadBody env fs i entry).entry = { entry with uploaded := true }) := by
  by_cases h1 : skipped entry = true
  · left
    exact ⟨h1, by rw [uploadBody_skipped env fs i entry h1]⟩
  · right
    simp only [Bool.not_eq_true] at h1
    simp only [passesOver, h1, Bool.false_or] at h
    by_cases h2 : openOk env fs entry.path = true
    · simp only [h2, Bool.not_true, Bool.false_or, Bool.and_eq_true, Bool.not_eq_true'] at h
      refine ⟨h1, Or.inr h.2, ?_⟩
      simp [uploadBody, h1, h2, h.1, h.2]
    · simp only [Bool.not_eq_true] at h2
      refine ⟨h1, Or.inl h2, ?_⟩
      simp [uploadBody, h1, h2]

theorem skipped_false_iff (entry : FileEntry) :
    skipped entry = false ↔
      entry.uploaded = false ∧
        (entry.event.status = Status.NEW ∨ entry.event.status = Status.FAILED) := by
  cases hu : entry.uploaded <;> cases hs : entry.event.status <;> simp [skipped, hu, hs]

theorem uploadBody_opens (env : Env) (fs : FileSystem) (i : Nat) (entry : FileEntry)
    (h : skipped entry = false) :
    Effect.openFile i entry.path (openOk env fs entry.path) ∈
      (uploadBody env fs i entry).effects := by
  simp only [uploadBody, h]
  by_cases h2 : openOk env fs entry.path = true
  · by_cases h3 : env.allocFault entry.size = true
    · simp [h2, h3]
    · by_cases h4 : readMismatch (readBytes env fs entry.path entry.size) entry.size = true
      · simp [h2, h3, h4]
      · simp [h2, h3, h4]
  · simp only [Bool.not_eq_true] at h2
    simp [h2]

/-- The entry that the loop of `uploadNextFile` takes up: when the guards pass, every earlier
entry is skipped and entry `i` is not, the body of the loop runs for entry `i`. -/
theorem uploadNextFile_selects (env : Env) (s : State) (i : Nat) (entry : FileEntry)
    (hadm : admits env = true) (hget : s.files[i]? = some entry)
    (hskip : skipped entry = false)
    (hpre : ∀ j e, j < i → s.files[j]? = some e → skipped e = true) :
    (uploadNextFile env s).2.files[i]? = some (uploadBody env s.fs i entry).entry ∧
    (∀ eff ∈ (uploadBody env s.fs i entry).effects,
      eff ∈ effectsSince s (uploadNextFile env s).2) ∧
    (∀ b, (uploadBody env s.fs i entry).flow = some b → (uploadNextFile env s).1 = b) ∧
    Effect.openFile i entry.path (openOk env s.fs entry.path) ∈
      effectsSince s (uploadNextFile env s).2 := by
  have hpass : ∀ j e, j < i → s.files[j]? = some e → passesOver env s.fs e = true := by
    intro j e hj hg
    simp [passesOver, hpre j e hj hg]
  obtain ⟨r1, r2, r3, _⟩ := uploadLoop_reached env s.fs s.files 0 i entry hget hpass
  simp only [Nat.zero_add] at r1 r2 r3
  rw [uploadNextFile_admitted env s hadm]
  simp only [effectsSince, List.drop_left]
  exact ⟨r1, r2, fun b hb => (r3 b hb).1, r2 _ (uploadBody_opens env s.fs i entry hskip)⟩

/-! ## A publish that the transport refuses -/

/-- C8 (amended): when a call of `uploadNextFile` passes the event `ev` of entry `i` to
`publish` and `publish` answers false, the call returns false and the filesystem is as
before; entries after `i` are unchanged; an entry before `i` that the selection test skips
(uploaded, or event neither `NEW` nor `FAILED`) is unchanged, and an entry before `i` that is
not skipped is a candidate whose file did not open or whose read did not return `size` bytes
in this call, and it is marked uploaded with nothing else changed; entry `i` keeps path,
size and `uploaded = false`, but its event is replaced by `ev`, the event built in this call
from the bytes read, in the status the transport leaves it in.  If that status is `NEW` or
`FAILED`, entry `i` is the entry the next call takes up: every earlier entry is skipped and
the next call that passes the guards opens the file of entry `i`. -/
theorem rejected_publish_state (env : Env) (s : State) (i : Nat) (ev : CloudEvent)
    (hrej : Effect.publish i ev false ∈ effectsSince s (uploadNextFile env s).2) :
    (uploadNextFile env s).1 = false ∧
    (uploadNextFile env s).2.fs = s.fs ∧
    ∃ entry, s.files[i]? = some entry ∧
      ev = buildEvent entry (((s.fs entry.path).getD []).take entry.size) ∧
      (uploadNextFile env s).2.files[i]? =
        some { entry with event := { ev with status := (env.publish ev).2 } } ∧
      (∀ j, i < j → (uploadNextFile env s).2.files[j]? = s.files[j]?) ∧
      (∀ j e, j < i → s.files[j]? = some e →
        (skipped e = true ∧ (uploadNextFile env s).2.files[j]? = some e) ∨
        (skipped e = false ∧
          (openOk env s.fs e.path = false ∨
            readMismatch (readBytes env s.fs e.path e.size) e.size = true) ∧
          (uploadNextFile env s).2.files[j]? = some { e with uploaded := true })) ∧
      (∀ j e, j < i → (uploadNextFile env s).2.files[j]? = some e → skipped e = true) ∧
      ((env.publish ev).2 = Status.NEW ∨ (env.publish ev).2 = Status.FAILED →
        ∀ env2, admits env2 = true →
          Effect.openFile i entry.path (openOk env2 s.fs entry.path) ∈
            effectsSince (uploadNextFile env s).2
              (uploadNextFile env2 (uploadNextFile env s).2).2) := by
  obtain ⟨entry, hget, hskip, hread, hev, hok, hres, hnew, hlater, hearlier, _, hskipped⟩ :=
    uploadNextFile_published env s i ev false hrej
  have hadm := (uploadNextFile_effects env s _ hrej).1
  have hfs : (uploadNextFile env s).2.fs = s.fs := by
    rw [uploadNextFile_admitted env s hadm]
  refine ⟨hres, hfs, entry, hget, hev, hnew, hlater, ?_, hskipped, ?_⟩
  · intro j e hj hg
    obtain ⟨hp, hq⟩ := hearlier j e hj hg
    rw [hq]
    rcases uploadBody_passed_cases env s.fs j e hp with ⟨h1, h2⟩ | ⟨h1, h2, h3⟩
    · exact Or.inl ⟨h1, by rw [h2]⟩
    · exact Or.inr ⟨h1, h2, by rw [h3]⟩
  · intro hst env2 hadm2
    have hsel := uploadNextFile_selects env2 (uploadNextFile env s).2 i _ hadm2 hnew
      ((skipped_false_iff _).2 ⟨((skipped_false_iff entry).1 hskip).1, hst⟩)
      hskipped
    have := hsel.2.2.2
    simpa [hfs] using this

theorem rejected_publish_state_witness :
    (Effect.publish 2 (buildEvent (freshEntry "b" 1) [3]) false ∈
        effectsSince mixedThree (uploadNextFile envReject mixedThree).2 ∧
      mixedThree.files.map (fun e => (e.path, skipped e, e.uploaded, e.event.status)) =
        [("c", true, false, Status.SENDING), ("a", false, false, Status.NEW),
         ("b", false, false, Status.NEW)] ∧
      (uploadNextFile envReject mixedThree).2.files.map
          (fun e => (e.path, e.uploaded, e.event.status, e.event.data)) =
        [("c", false, Status.SENDING, [7]), ("a", true, Status.NEW, []),
         ("b", false, Status.NEW, [3])]) ∧
    ((uploadNextFile envReject mixedThree).1 = false ∧
    (uploadNextFile envReject mixedThree).2.fs = mixedThree.fs ∧
    ∃ entry, mixedThree.files[2]? = some entry ∧
      buildEvent (freshEntry "b" 1) [3] =
        buildEvent entry (((mixedThree.fs entry.path).getD []).take entry.size) ∧
      (uploadNextFile envReject mixedThree).2.files[2]? =
        some { entry with event := { buildEvent (freshEntry "b" 1) [3] with
          status := (envReject.publish (buildEvent (freshEntry "b" 1) [3])).2 } } ∧
      (∀ j, 2 < j → (uploadNextFile envReject mixedThree).2.files[j]? =
        mixedThree.files[j]?) ∧
      (∀ j e, j < 2 → mixedThree.files[j]? = some e →
        (skipped e = true ∧ (uploadNextFile envReject mixedThree).2.files[j]? = some e) ∨
        (skipped e = false ∧
          (openOk envReject mixedThree.fs e.path = false ∨
            readMismatch (readBytes envReject mixedThree.fs e.path e.size) e.size = true) ∧
          (uploadNextFile envReject mixedThree).2.files[j]? =
            some { e with uploaded := true })) ∧
      (∀ j e, j < 2 → (uploadNextFile envReject mixedThree).2.files[j]? = some e →
        skipped e = true) ∧
      ((envReject.publish (buildEvent (freshEntry "b" 1) [3])).2 = Status.NEW ∨
          (envReject.publish (buildEvent (freshEntry "b" 1) [3])).2 = Status.FAILED →
        ∀ env2, admits env2 = true →
          Effect.openFile 2 entry.path (openOk env2 mixedThree.fs entry.path) ∈
            effectsSince (uploadNextFile envReject mixedThree).2
              (uploadNextFile env2 (uploadNextFile envReject mixedThree).2).2)) :=
  ⟨⟨by decide, by decide, by decide⟩,
   rejected_publish_state envReject mixedThree 2 (buildEvent (freshEntry "b" 1) [3])
     (by decide)⟩

/-- C8 as stated fails: `publish` answers false for the first of two fresh entries; the call
returns false, yet the event of entry 0 is no longer the one it held before the call (it now
carries the name, content type, payload and observer set in this call).  And for an entry
whose previous event was `FAILED`, a transport that leaves a refused event untouched leaves
the entry with a `NEW` event: the status changed too. -/
theorem rejected_publish_replaces_event :
    (Effect.publish 0 (buildEvent (freshEntry "a" 2) [1, 2]) false ∈
        effectsSince (twoFiles fsAB) (uploadNextFile envReject (twoFiles fsAB)).2 ∧
      (uploadNextFile envReject (twoFiles fsAB)).1 = false ∧
      (twoFiles fsAB).files[0]? = some (freshEntry "a" 2) ∧
      (uploadNextFile envReject (twoFiles fsAB)).2.files[0]? =
        some { freshEntry "a" 2 with event := buildEvent (freshEntry "a" 2) [1, 2] } ∧
      (uploadNextFile envReject (twoFiles fsAB)).2.files ≠ (twoFiles fsAB).files) ∧
    ((uploadNextFile envReject (afterPublish Status.FAILED false fsAB)).1 = false ∧
      (afterPublish Status.FAILED false fsAB).files.map (fun e => e.event.status) =
        [Status.FAILED, Status.NEW] ∧
      (uploadNextFile envReject (afterPublish Status.FAILED false fsAB)).2.files.map
        (fun e => e.event.status) = [Status.NEW, Status.NEW]) := by
  decide

/-! ## One attempt per call -/

/-- C9 (amended): one call of `uploadNextFile` passes at most one event to `publish`; it
returns true exactly when it passed an event to `publish` and `publish` accepted it; and when
it passes an event for entry `i`, entry `i` is not uploaded, its status is `NEW` or `FAILED`
and its file was read in full, the returned value is the answer of `publish`, no earlier
entry is both a candidate (not uploaded, `NEW` or `FAILED`) and readable in full, and no call
is made for an entry after `i`. -/
theorem uploadNextFile_one_attempt (env : Env) (s : State) :
    (effectsSince s (uploadNextFile env s).2).countP Effect.isPublish ≤ 1 ∧
    ((uploadNextFile env s).1 = true ↔
      ∃ i ev, Effect.publish i ev true ∈ effectsSince s (uploadNextFile env s).2) ∧
    (∀ i ev ok, Effect.publish i ev ok ∈ effectsSince s (uploadNextFile env s).2 →
      ∃ entry, s.files[i]? = some entry ∧ entry.uploaded = false ∧
        (entry.event.status = Status.NEW ∨ entry.event.status = Status.FAILED) ∧
        readable env s.fs entry = true ∧
        (uploadNextFile env s).1 = ok ∧
        (∀ j e, j < i → s.files[j]? = some e →
          ¬(skipped e = false ∧ readable env s.fs e = true)) ∧
        (∀ j e, j < i → (uploadNextFile env s).2.files[j]? = some e →
          e.uploaded = true ∨
            (e.event.status ≠ Status.NEW ∧ e.event.status ≠ Status.FAILED)) ∧
        (∀ eff ∈ effectsSince s (uploadNextFile env s).2, ∀ j,
          eff.entryIndex = some j → j ≤ i)) := by
  refine ⟨?_, ⟨?_, ?_⟩, ?_⟩
  · cases ha : admits env with
    | true =>
      rw [uploadNextFile_admitted env s ha]
      simp only [effectsSince, List.drop_left]
      exact uploadLoop_publish_count env s.fs s.files 0
    | false =>
      have hna : env.connected = false ∨ env.canPublish MAX_EVENT_SIZE = false := by
        simp only [admits, Bool.and_eq_false_iff] at ha
        exact ha
      rw [uploadNextFile_refused env s hna]
      simp [effectsSince]
  · intro h
    cases ha : admits env with
    | true =>
      rw [uploadNextFile_admitted env s ha] at h ⊢
      simp only [effectsSince, List.drop_left]
      exact uploadLoop_true env s.fs s.files 0 h
    | false =>
      have hna : env.connected = false ∨ env.canPublish MAX_EVENT_SIZE = false := by
        simp only [admits, Bool.and_eq_false_iff] at ha
        exact ha
      rw [uploadNextFile_refused env s hna] at h
      cases h
  · rintro ⟨i, ev, h⟩
    obtain ⟨_, _, _, _, _, _, hres, _⟩ := uploadNextFile_published env s i ev true h
    exact hres
  · intro i ev ok h
    obtain ⟨entry, hget, hskip, hread, _, _, hres, _, _, hearlier, hidx, hafter⟩ :=
      uploadNextFile_published env s i ev ok h
    have hs := (skipped_false_iff entry).1 hskip
    refine ⟨entry, hget, hs.1, hs.2, hread, hres, ?_, ?_, hidx⟩
    · intro j e hj hg hboth
      have hp := (hearlier j e hj hg).1
      simp only [readable, Bool.and_eq_true, Bool.not_eq_true'] at hboth
      simp [passesOver, hboth.1, hboth.2.1.1, hboth.2.1.2, hboth.2.2] at hp
    · intro j e hj hg
      have := hafter j e hj hg
      simpa [skipped] using this

theorem uploadNextFile_one_attempt_witness :
    Effect.publish 1 (buildEvent (freshEntry "b" 1) [3]) true ∈
      effectsSince shortFirst (uploadNextFile envOk shortFirst).2 ∧
    (effectsSince shortFirst (uploadNextFile envOk shortFirst).2).countP Effect.isPublish ≤ 1 ∧
    (uploadNextFile envOk shortFirst).1 = true ∧
    ∃ entry, shortFirst.files[1]? = some entry ∧ entry.uploaded = false ∧
      (entry.event.status = Status.NEW ∨ entry.event.status = Status.FAILED) ∧
      readable envOk shortFirst.fs entry = true ∧
      (uploadNextFile envOk shortFirst).1 = true ∧
      (∀ j e, j < 1 → shortFirst.files[j]? = some e →
        ¬(skipped e = false ∧ readable envOk shortFirst.fs e = true)) ∧
      (∀ j e, j < 1 → (uploadNextFile envOk shortFirst).2.files[j]? = some e →
        e.uploaded = true ∨
          (e.event.status ≠ Status.NEW ∧ e.event.status ≠ Status.FAILED)) ∧
      (∀ eff ∈ effectsSince shortFirst (uploadNextFile envOk shortFirst).2, ∀ j,
        eff.entryIndex = some j → j ≤ 1) :=
  ⟨by decide,
   (uploadNextFile_one_attempt envOk shortFirst).1,
   (uploadNextFile_one_attempt envOk shortFirst).2.1.2
     ⟨1, buildEvent (freshEntry "b" 1) [3], by decide⟩,
   (uploadNextFile_one_attempt envOk shortFirst).2.2 1
     (buildEvent (freshEntry "b" 1) [3]) true (by decide)⟩

/-- C9 as stated fails: of two fresh entries the first is the first one not uploaded with a
`NEW` event, but its file holds one byte where two are expected; the call reads it short,
goes on to examine entry 1, and the upload it starts (and returns true for) is the one of
entry 1. -/
theorem upload_not_first_candidate :
    shortFirst.files[0]? = some (freshEntry "a" 2) ∧
    (freshEntry "a" 2).uploaded = false ∧
    (freshEntry "a" 2).event.status = Status.NEW ∧
    Effect.readFile 0 "a" 2 (some [1]) ∈
      effectsSince shortFirst (uploadNextFile envOk shortFirst).2 ∧
    Effect.openFile 1 "b" true ∈
      effectsSince shortFirst (uploadNextFile envOk shortFirst).2 ∧
    Effect.publish 1 (buildEvent (freshEntry "b" 1) [3]) true ∈
      effectsSince shortFirst (uploadNextFile envOk shortFirst).2 ∧
    (uploadNextFile envOk shortFirst).1 = true := by
  decide

/-! ## A failed upload is tried again -/

/-- C5: for an entry that is not uploaded and whose event is `FAILED`,
`processCompletedUploads` leaves the entry as it is (not uploaded, same event), makes no
`remove` call for it (and, when no other tracked file has its path, leaves the file at its
path as it was), and the entry is not skipped by the selection test.  A following call of
`uploadNextFile` that passes both guards, finds every earlier entry skipped and reads the
file in full opens the file of that entry, reads `size` bytes from the filesystem as it is at
that call, and passes to `publish` a newly built event for that entry whose payload is those
bytes; the entry then holds that event and the call returns the answer of `publish`. -/
theorem failed_entry_retried (env env2 : Env) (s : State) (i : Nat) (entry : FileEntry)
    (hget : s.files[i]? = some entry) (hup : entry.uploaded = false)
    (hfailed : entry.event.status = Status.FAILED)
    (hadm : admits env2 = true)
    (hfirst : ∀ j e, j < i → (processCompletedUploads env s).files[j]? = some e →
      skipped e = true)
    (hread : readable env2 (processCompletedUploads env s).fs entry = true) :
    ((processCompletedUploads env s).files[i]? = some entry ∧
      (∀ eff ∈ effectsSince s (processCompletedUploads env s), eff.entryIndex ≠ some i) ∧
      ((∀ j e, s.files[j]? = some e → e.path = entry.path → j = i) →
        (processCompletedUploads env s).fs entry.path = s.fs entry.path) ∧
      skipped entry = false) ∧
    (Effect.openFile i entry.path true ∈
        effectsSince (processCompletedUploads env s)
          (uploadNextFile env2 (processCompletedUploads env s)).2 ∧
      Effect.readFile i entry.path entry.size
          (some (diskBytes (processCompletedUploads env s).fs entry)) ∈
        effectsSince (processCompletedUploads env s)
          (uploadNextFile env2 (processCompletedUploads env s)).2 ∧
      Effect.publish i (buildEvent entry (diskBytes (processCompletedUploads env s).fs entry))
          (env2.publish
            (buildEvent entry (diskBytes (processCompletedUploads env s).fs entry))).1 ∈
        effectsSince (processCompletedUploads env s)
          (uploadNextFile env2 (processCompletedUploads env s)).2 ∧
      (buildEvent entry (diskBytes (processCompletedUploads env s).fs entry)).data =
        diskBytes (processCompletedUploads env s).fs entry ∧
      (uploadNextFile env2 (processCompletedUploads env s)).2.files[i]? =
        some { entry with event :=
          { buildEvent entry (diskBytes (processCompletedUploads env s).fs entry) with
            status := (env2.publish
              (buildEvent entry (diskBytes (processCompletedUploads env s).fs entry))).2 } } ∧
      (uploadNextFile env2 (processCompletedUploads env s)).1 =
        (env2.publish
          (buildEvent entry (diskBytes (processCompletedUploads env s).fs entry))).1) := by
  have hskip : skipped entry = false := (skipped_false_iff entry).2 ⟨hup, Or.inr hfailed⟩
  have hkept : (processCompletedUploads env s).files[i]? = some entry := by
    simp only [processCompletedUploads, processLoop_files, List.getElem?_map, hget,
      Option.map_some']
    simp [retired, hfailed]
  refine ⟨⟨hkept, ?_, ?_, hskip⟩, ?_⟩
  · intro eff hmem hidx
    simp only [effectsSince, processCompletedUploads, List.drop_left] at hmem
    obtain ⟨fsi, h1, _, _⟩ := processLoop_at env s.files 0 s.fs i entry hget
    have hb := h1 eff hmem (by simpa using hidx)
    have := (processBody_effect env fsi (0 + i) entry eff hb (0 + i)
      (by simpa using hidx)).2.2.1
    rw [hfailed] at this
    cases this
  · intro huniq
    simp only [processCompletedUploads]
    apply processLoop_fs_kept
    intro e hmem hpath hboth
    obtain ⟨j, hj⟩ := List.getElem?_of_mem hmem
    have hji := huniq j e hj hpath
    subst hji
    rw [hget] at hj
    simp only [Option.some.injEq] at hj
    subst hj
    rw [hfailed] at hboth
    cases hboth.2
  · obtain ⟨r1, r2, r3, _⟩ :=
      uploadNextFile_selects env2 (processCompletedUploads env s) i entry hadm hkept hskip
        hfirst
    have hfull : readBytes env2 (processCompletedUploads env s).fs entry.path entry.size =
        some (diskBytes (processCompletedUploads env s).fs entry) := by
      apply readBytes_full
      simp only [readable, Bool.and_eq_true, Bool.not_eq_true'] at hread
      exact hread.2
    have hbody := uploadBody_published env2 (processCompletedUploads env s).fs i entry
      hskip hread
    rw [hfull] at hbody
    simp only [Option.getD_some] at hbody
    rw [hbody] at r1 r2 r3
    refine ⟨?_, ?_, ?_, rfl, r1, r3 _ rfl⟩
    · exact r2 _ (by simp)
    · exact r2 _ (by simp)
    · exact r2 _ (by simp)

theorem failed_entry_retried_witness :
    ((afterPublish Status.FAILED false fsAB).files[0]? =
        some { path := "a", size := 2, uploaded := false, event := eventA Status.FAILED } ∧
      admits envOk = true ∧
      readable envOk (processCompletedUploads envOk (afterPublish Status.FAILED false fsAB)).fs
        { path := "a", size := 2, uploaded := false, event := eventA Status.FAILED } = true) ∧
    (Effect.publish 0 (buildEvent (freshEntry "a" 2) [1, 2]) true ∈
        effectsSince (processCompletedUploads envOk (afterPublish Status.FAILED false fsAB))
          (uploadNextFile envOk
            (processCompletedUploads envOk (afterPublish Status.FAILED false fsAB))).2 ∧
      (processCompletedUploads envOk (afterPublish Status.FAILED false fsAB)).files[0]? =
        some { path := "a", size := 2, uploaded := false, event := eventA Status.FAILED }) :=
  ⟨⟨rfl, rfl, by decide⟩,
   (failed_entry_retried envOk envOk (afterPublish Status.FAILED false fsAB) 0
     { path := "a", size := 2, uploaded := false, event := eventA Status.FAILED }
     rfl rfl rfl rfl (fun j e hj => absurd hj (Nat.not_lt_zero j)) (by decide)).2.2.2.1,
   (failed_entry_retried envOk envOk (afterPublish Status.FAILED false fsAB) 0
     { path := "a", size := 2, uploaded := false, event := eventA Status.FAILED }
     rfl rfl rfl rfl (fun j e hj => absurd hj (Nat.not_lt_zero j)) (by decide)).1.1⟩

/-! ## The driving loop -/

theorem processLoop_all_uploaded (env : Env) (files : List FileEntry) :
    ∀ (k : Nat) (fs : FileSystem), allUploaded files = true →
      processLoop env k files fs = { files := files, fs := fs, effects := [] } := by
  induction files with
  | nil => intro k fs _; simp [processLoop]
  | cons head rest ih =>
    intro k fs h
    simp only [allUploaded, List.all_cons, Bool.and_eq_true] at h
    have hrest : allUploaded rest = true := h.2
    simp [processLoop, processBody, h.1, ih (k + 1) fs hrest]

theorem processLoop_no_message (env : Env) (files : List FileEntry) :
    ∀ (k : Nat) (fs : FileSystem),
      (processLoop env k files fs).effects.count completionMessage = 0 := by
  induction files with
  | nil => intro k fs; simp [processLoop]
  | cons head rest ih =>
    intro k fs
    simp only [processLoop, List.count_append, ih, Nat.add_zero]
    rw [List.count_eq_zero]
    intro hmem
    have := processBody_effect env fs k head _ hmem
    unfold processBody at hmem
    split at hmem
    · split at hmem
      · simp only [List.mem_cons, List.mem_singleton, List.not_mem_nil, or_false] at hmem
        rcases hmem with h | h | h
        · simp [completionMessage] at h
        · simp [completionMessage] at h
        · split at h <;> simp [completionMessage] at h
      · split at hmem
        · simp [completionMessage] at hmem
        · simp at hmem
    · simp at hmem

theorem uploadBody_no_message (env : Env) (fs : FileSystem) (i : Nat) (entry : FileEntry) :
    (uploadBody env fs i entry).effects.count completionMessage = 0 := by
  rw [List.count_eq_zero]
  intro h
  simp only [uploadBody] at h
  split at h
  · simp at h
  · split at h
    · simp [completionMessage] at h
    · split at h
      · simp [completionMessage] at h
      · split at h
        · simp [completionMessage] at h
        · simp only [List.mem_append, List.mem_cons, List.mem_singleton, List.not_mem_nil,
            or_false] at h
          rcases h with (h | h | h | h | h) | h
          · simp [completionMessage] at h
          · simp [completionMessage] at h
          · simp [completionMessage] at h
          · simp [completionMessage] at h
          · simp [completionMessage] at h
          · split at h
            · simp at h
            · simp [completionMessage] at h

theorem uploadLoop_no_message (env : Env) (fs : FileSystem) (files : List FileEntry) :
    ∀ k, (uploadLoop env fs k files).effects.count completionMessage = 0 := by
  induction files with
  | nil => intro k; simp [uploadLoop]
  | cons head rest ih =>
    intro k
    simp only [uploadLoop]
    split
    · simp [List.count_append, ih, uploadBody_no_message]
    · exact uploadBody_no_message env fs k head

theorem processLoop_no_call (env : Env) (files : List FileEntry) (name : String) :
    ∀ (k : Nat) (fs : FileSystem),
      (processLoop env k files fs).effects.count (Effect.call name) = 0 := by
  induction files with
  | nil => intro k fs; simp [processLoop]
  | cons head rest ih =>
    intro k fs
    simp only [processLoop, List.count_append, ih, Nat.add_zero]
    rw [List.count_eq_zero]
    intro hmem
    unfold processBody at hmem
    split at hmem
    · split at hmem
      · simp only [List.mem_cons, List.mem_singleton, List.not_mem_nil, or_false] at hmem
        rcases hmem with h | h | h
        · cases h
        · cases h
        · split at h <;> cases h
      · split at hmem
        · simp at hmem
        · simp at hmem
    · simp at hmem

theorem uploadBody_no_call (env : Env) (fs : FileSystem) (i : Nat) (entry : FileEntry)
    (name : String) : (uploadBody env fs i entry).effects.count (Effect.call name) = 0 := by
  rw [List.count_eq_zero]
  intro h
  simp only [uploadBody] at h
  split at h
  · simp at h
  · split at h
    · simp at h
    · split at h
      · simp at h
      · split at h
        · simp at h
        · simp only [List.mem_append, List.mem_cons, List.mem_singleton, List.not_mem_nil,
            or_false] at h
          rcases h with (h | h | h | h | h) | h
          · cases h
          · cases h
          · cases h
          · cases h
          · cases h
          · split at h
            · simp at h
            · simp at h

theorem uploadLoop_no_call (env : Env) (fs : FileSystem) (files : List FileEntry)
    (name : String) :
    ∀ k, (uploadLoop env fs k files).effects.count (Effect.call name) = 0 := by
  induction files with
  | nil => intro k; simp [uploadLoop]
  | cons head rest ih =>
    intro k
    simp only [uploadLoop]
    split
    · simp [List.count_append, ih, uploadBody_no_call]
    · exact uploadBody_no_call env fs k head name

theorem processCompletedUploads_effects (env : Env) (s : State) :
    effectsSince s (processCompletedUploads env s) =
      (processLoop env 0 s.files s.fs).effects := by
  simp [effectsSince, processCompletedUploads]

theorem uploadNextFile_effects_eq (env : Env) (s : State) :
    effectsSince s (uploadNextFile env s).2 =
      if admits env = true then (uploadLoop env s.fs 0 s.files).effects else [] := by
  cases ha : admits env with
  | true =>
    rw [uploadNextFile_admitted env s ha]
    simp [effectsSince]
  | false =>
    have hna : env.connected = false ∨ env.canPublish MAX_EVENT_SIZE = false := by
      simp only [admits, Bool.and_eq_false_iff] at ha
      exact ha
    rw [uploadNextFile_refused env s hna]
    simp [effectsSince]

/-- One tick when, after `processCompletedUploads`, some file is not uploaded. -/
theorem loop_busy (env : Env) (s : State)
    (h : allUploaded (processCompletedUploads env s).files = false) :
    (loop env s).trace =
      s.trace ++ ([Effect.call "processCompletedUploads"] ++
        effectsSince s (processCompletedUploads env s) ++
        [Effect.call "uploadNextFile"] ++
        effectsSince (processCompletedUploads env s)
          (uploadNextFile env (processCompletedUploads env s)).2 ++
        [Effect.delay 100]) ∧
    (loop env s).files = (uploadNextFile env (processCompletedUploads env s)).2.files ∧
    (loop env s).fs = (uploadNextFile env (processCompletedUploads env s)).2.fs ∧
    (loop env s).completionMessagePrinted = s.completionMessagePrinted := by
  rw [uploadNextFile_effects_eq, processCompletedUploads_effects]
  simp only [processCompletedUploads] at h
  cases ha : admits env with
  | true =>
    have hc : env.connected = true ∧ env.canPublish MAX_EVENT_SIZE = true := by
      simpa [admits] using ha
    simp [loop, processCompletedUploads, uploadNextFile, h, hc.1, hc.2]
  | false =>
    have hna : env.connected = false ∨ env.canPublish MAX_EVENT_SIZE = false := by
      simp only [admits, Bool.and_eq_false_iff] at ha
      exact ha
    rcases hna with hc | hc
    · simp [loop, processCompletedUploads, uploadNextFile, h, hc]
    · simp [loop, processCompletedUploads, uploadNextFile, h, hc]

/-- One tick when, after `processCompletedUploads`, every file is uploaded. -/
theorem loop_done (env : Env) (s : State)
    (h : allUploaded (processCompletedUploads env s).files = true) :
    (loop env s).trace =
      s.trace ++ ([Effect.call "processCompletedUploads"] ++
        effectsSince s (processCompletedUploads env s) ++
        (if s.completionMessagePrinted = true then [] else [completionMessage]) ++
        [Effect.delay 100]) ∧
    (loop env s).files = (processCompletedUploads env s).files ∧
    (loop env s).fs = (processCompletedUploads env s).fs ∧
    (loop env s).completionMessagePrinted = true := by
  rw [processCompletedUploads_effects]
  simp only [processCompletedUploads] at h
  cases hp : s.completionMessagePrinted <;>
    simp [loop, processCompletedUploads, h, hp]

theorem count_message_call (name : String) (l : List Effect) :
    (Effect.call name :: l).count completionMessage = l.count completionMessage := by
  simp [completionMessage, List.count_cons]

theorem count_message_delay (ms : Nat) (l : List Effect) :
    (Effect.delay ms :: l).count completionMessage = l.count completionMessage := by
  simp [completionMessage, List.count_cons]

theorem count_message_self (l : List Effect) :
    (completionMessage :: l).count completionMessage = l.count completionMessage + 1 := by
  simp [List.count_cons]

theorem loop_printed (env : Env) (s : State) :
    (loop env s).completionMessagePrinted =
      (s.completionMessagePrinted || allUploaded (processCompletedUploads env s).files) := by
  cases h : allUploaded (processCompletedUploads env s).files with
  | true => simp [(loop_done env s h).2.2.2]
  | false => simp [(loop_busy env s h).2.2.2]

theorem loop_message_count (env : Env) (s : State) :
    (loop env s).trace.count completionMessage =
      s.trace.count completionMessage +
        (if (!s.completionMessagePrinted &&
            allUploaded (processCompletedUploads env s).files) = true then 1 else 0) := by
  cases h : allUploaded (processCompletedUploads env s).files with
  | true =>
    rw [(loop_done env s h).1, processCompletedUploads_effects]
    cases hp : s.completionMessagePrinted <;>
      simp [List.count_append, processLoop_no_message, count_message_call,
        count_message_delay, count_message_self]
  | false =>
    rw [(loop_busy env s h).1, processCompletedUploads_effects, uploadNextFile_effects_eq]
    split <;>
      simp [List.count_append, processLoop_no_message, uploadLoop_no_message,
        count_message_call, count_message_delay]

theorem statusChange_kept (i : Nat) (outcome : Status) (s : State) :
    (statusChange i outcome s).completionMessagePrinted = s.completionMessagePrinted ∧
    (statusChange i outcome s).trace.count completionMessage =
      s.trace.count completionMessage ∧
    (statusChange i outcome s).fs = s.fs ∧
    (statusChange i outcome s).files.length = s.files.length := by
  unfold statusChange
  split
  · exact ⟨rfl, rfl, rfl, rfl⟩
  · split
    · refine ⟨rfl, ?_, rfl, by simp⟩
      simp only [List.count_append]
      split
      · unfold eventStatusChangeCallback
        split
        · simp [completionMessage, List.count_cons]
        · split <;> simp [completionMessage, List.count_cons]
      · simp
    · exact ⟨rfl, rfl, rfl, rfl⟩

theorem run_append (a b : List Action) : ∀ s, run (a ++ b) s = run b (run a s) := by
  induction a with
  | nil => intro s; rfl
  | cons x rest ih => intro s; simp only [List.cons_append, run]; exact ih _

theorem completes_append (a b : List Action) :
    ∀ s, completes (a ++ b) s = (completes a s || completes b (run a s)) := by
  induction a with
  | nil => intro s; simp [completes, run]
  | cons x rest ih =>
    intro s
    cases x with
    | tick env => simp [completes, run, step, ih, Bool.or_assoc]
    | settle i outcome => simp [completes, run, step, ih]

theorem run_printed (acts : List Action) :
    ∀ s, (run acts s).completionMessagePrinted =
      (s.completionMessagePrinted || completes acts s) := by
  induction acts with
  | nil => intro s; simp [run, completes]
  | cons x rest ih =>
    intro s
    cases x with
    | tick env => simp [run, step, completes, ih, loop_printed, Bool.or_assoc]
    | settle i outcome =>
      simp [run, step, completes, ih, (statusChange_kept i outcome s).1]

theorem run_message_count (acts : List Action) :
    ∀ s, (run acts s).trace.count completionMessage =
      s.trace.count completionMessage +
        (if (!s.completionMessagePrinted && completes acts s) = true then 1 else 0) := by
  induction acts with
  | nil => intro s; simp [run, completes]
  | cons x rest ih =>
    intro s
    cases x with
    | tick env =>
      simp only [run, step, completes, ih, loop_printed, loop_message_count]
      rcases Bool.eq_false_or_eq_true s.completionMessagePrinted with h1 | h1 <;>
        rcases Bool.eq_false_or_eq_true
          (allUploaded (processCompletedUploads env s).files) with h2 | h2 <;>
        rcases Bool.eq_false_or_eq_true (completes rest (loop env s)) with h3 | h3 <;>
        simp [h1, h2, h3]
    | settle i outcome =>
      simp only [run, step, completes, ih, (statusChange_kept i outcome s).1,
        (statusChange_kept i outcome s).2.1]

/-- C10: quiescence of the driving loop.
(1) In a state where every tracked file is uploaded (the empty collection included), a tick
leaves the entries and the filesystem unchanged and records only the call of
`processCompletedUploads`, the completion message if it was not printed yet, and the delay:
`uploadNextFile` is called zero times and nothing is published.
(2) Over any run of ticks and status changes that starts with the message not printed, the
completion message is logged once if some tick of the run finds every file uploaded at its
check, and never otherwise; it is logged by the first tick whose check finds every file
uploaded, however the run goes on.
(3) On a tick whose check (after `processCompletedUploads`) finds some file not uploaded,
the recorded calls are those of `processCompletedUploads`, then exactly one call of
`uploadNextFile` with what it does, then the delay. -/
theorem loop_quiescence (env : Env) (s : State) (acts front back : List Action) :
    (allUploaded s.files = true →
      (loop env s).files = s.files ∧ (loop env s).fs = s.fs ∧
      effectsSince s (loop env s) =
        [Effect.call "processCompletedUploads"] ++
          (if s.completionMessagePrinted = true then [] else [completionMessage]) ++
          [Effect.delay 100] ∧
      (effectsSince s (loop env s)).count (Effect.call "uploadNextFile") = 0 ∧
      (effectsSince s (loop env s)).countP Effect.isPublish = 0) ∧
    (s.completionMessagePrinted = false →
      (run acts s).trace.count completionMessage =
        s.trace.count completionMessage + (if completes acts s = true then 1 else 0)) ∧
    (s.completionMessagePrinted = false → completes front s = false →
      allUploaded (processCompletedUploads env (run front s)).files = true →
      completionMessage ∈ effectsSince (run front s) (loop env (run front s)) ∧
      (run (front ++ Action.tick env :: back) s).trace.count completionMessage =
        s.trace.count completionMessage + 1) ∧
    (allUploaded (processCompletedUploads env s).files = false →
      effectsSince s (loop env s) =
        [Effect.call "processCompletedUploads"] ++
          effectsSince s (processCompletedUploads env s) ++
          [Effect.call "uploadNextFile"] ++
          effectsSince (processCompletedUploads env s)
            (uploadNextFile env (processCompletedUploads env s)).2 ++
          [Effect.delay 100] ∧
      (loop env s).files = (uploadNextFile env (processCompletedUploads env s)).2.files ∧
      (loop env s).fs = (uploadNextFile env (processCompletedUploads env s)).2.fs ∧
      (effectsSince s (loop env s)).count (Effect.call "uploadNextFile") = 1) := by
  refine ⟨?_, ?_, ?_, ?_⟩
  · intro hall
    have hp : processCompletedUploads env s = s := by
      simp [processCompletedUploads, processLoop_all_uploaded env s.files 0 s.fs hall]
    have hcheck : allUploaded (processCompletedUploads env s).files = true := by
      rw [hp]; exact hall
    obtain ⟨h1, h2, h3, _⟩ := loop_done env s hcheck
    have heff : effectsSince s (processCompletedUploads env s) = [] := by
      rw [hp]; simp [effectsSince]
    rw [heff] at h1
    have htrace : effectsSince s (loop env s) =
        [Effect.call "processCompletedUploads"] ++
          (if s.completionMessagePrinted = true then [] else [completionMessage]) ++
          [Effect.delay 100] := by
      simp only [effectsSince, h1, List.drop_left]
      simp
    refine ⟨by rw [h2, hp], by rw [h3, hp], htrace, ?_, ?_⟩
    · rw [htrace]
      split <;> simp [List.count_cons, completionMessage]
    · rw [htrace]
      split <;> simp [List.countP_cons, Effect.isPublish, completionMessage]
  · intro hp
    rw [run_message_count acts s, hp]
    simp
  · intro hp hfront hcheck
    have hnot : (run front s).completionMessagePrinted = false := by
      rw [run_printed, hp, hfront]; rfl
    refine ⟨?_, ?_⟩
    · simp only [effectsSince, (loop_done env (run front s) hcheck).1, List.drop_left, hnot]
      simp
    · rw [run_message_count, hp, completes_append]
      simp [completes, hcheck]
  · intro hcheck
    obtain ⟨h1, h2, h3, _⟩ := loop_busy env s hcheck
    have htrace : effectsSince s (loop env s) =
        [Effect.call "processCompletedUploads"] ++
          effectsSince s (processCompletedUploads env s) ++
          [Effect.call "uploadNextFile"] ++
          effectsSince (processCompletedUploads env s)
            (uploadNextFile env (processCompletedUploads env s)).2 ++
          [Effect.delay 100] := by
      simp only [effectsSince, h1, List.drop_left]
    refine ⟨htrace, h2, h3, ?_⟩
    rw [htrace, processCompletedUploads_effects, uploadNextFile_effects_eq]
    split <;>
      simp [List.count_append, List.count_cons, processLoop_no_call, uploadLoop_no_call]

theorem loop_quiescence_witness :
    (allUploaded allDone.files = true ∧
      (twoFiles fsAB).completionMessagePrinted = false ∧
      completes bothDelivered (twoFiles fsAB) = false ∧
      allUploaded (processCompletedUploads envOk (run bothDelivered (twoFiles fsAB))).files
        = true ∧
      allUploaded (processCompletedUploads envOk (twoFiles fsAB)).files = false) ∧
    ((loop envOk allDone).files = allDone.files ∧
      (effectsSince allDone (loop envOk allDone)).count (Effect.call "uploadNextFile") = 0) ∧
    ((loop envOk (initial fsEmpty)).files = [] ∧
      (effectsSince (initial fsEmpty) (loop envOk (initial fsEmpty))).countP
        Effect.isPublish = 0) ∧
    (run (bothDelivered ++ Action.tick envOk :: [Action.tick envOk, Action.tick envOk])
        (twoFiles fsAB)).trace.count completionMessage =
      (twoFiles fsAB).trace.count completionMessage + 1 ∧
    (effectsSince (twoFiles fsAB) (loop envOk (twoFiles fsAB))).count
      (Effect.call "uploadNextFile") = 1 :=
  ⟨⟨by decide, rfl, by decide, by decide, by decide⟩,
   ⟨((loop_quiescence envOk allDone [] [] []).1 (by decide)).1,
    ((loop_quiescence envOk allDone [] [] []).1 (by decide)).2.2.2.1⟩,
   ⟨((loop_quiescence envOk (initial fsEmpty) [] [] []).1 rfl).1,
    ((loop_quiescence envOk (initial fsEmpty) [] [] []).1 rfl).2.2.2.2⟩,
   ((loop_quiescence envOk (twoFiles fsAB) [] bothDelivered
      [Action.tick envOk, Action.tick envOk]).2.2.1 rfl (by decide) (by decide)).2,
   ((loop_quiescence envOk (twoFiles fsAB) [] [] []).2.2.2 (by decide)).2.2.2⟩

/-! ## Uploads in flight -/

theorem pendingCount_cons (entry : FileEntry) (files : List FileEntry) :
    pendingCount (entry :: files) =
      pendingCount files + (if entry.event.status = Status.SENDING then 1 else 0) := by
  simp [pendingCount, List.countP_cons]

theorem pendingCount_retired (files : List FileEntry) :
    pendingCount (files.map retired) = pendingCount files := by
  induction files with
  | nil => rfl
  | cons head rest ih =>
    simp only [List.map_cons, pendingCount_cons, ih]
    have : (retired head).event = head.event := by
      unfold retired; split <;> rfl
    rw [this]

theorem pendingCount_of_fresh (files : List FileEntry)
    (h : ∀ e ∈ files, e.uploaded = false ∧ e.event.status = Status.NEW) :
    pendingCount files = 0 := by
  simp only [pendingCount, List.countP_eq_zero]
  intro e hmem
  simp [(h e hmem).2]

theorem uploadLoop_pending (env : Env) (fs : FileSystem) (files : List FileEntry) :
    ∀ k, pendingCount (uploadLoop env fs k files).files ≤ pendingCount files + 1 := by
  induction files with
  | nil => intro k; simp [uploadLoop, pendingCount]
  | cons head rest ih =>
    intro k
    simp only [uploadLoop]
    split
    · rename_i hflow
      have hp := (uploadBody_flow_none env fs k head).1 hflow
      have hev : (uploadBody env fs k head).entry.event = head.event := by
        rcases (uploadBody_passed env fs k head hp).1 with h | h <;> rw [h]
      simp only [pendingCount_cons, hev]
      have := ih (k + 1)
      omega
    · simp only [pendingCount_cons]
      split <;> split <;> omega

theorem statusChange_pending (i : Nat) (outcome : Status) (s : State) :
    pendingCount (statusChange i outcome s).files ≤ pendingCount s.files := by
  unfold statusChange
  split
  · exact le_refl _
  · rename_i entry hget
    split
    · rename_i hcond
      have hlt : i < s.files.length := (List.getElem?_eq_some_iff.1 hget).1
      simp only [pendingCount, List.countP_set _ _ _ _ hlt]
      have hout : outcome ≠ Status.SENDING := by
        rcases hcond.2 with h | h <;> rw [h] <;> decide
      simp [hout]
    · exact le_refl _

theorem loop_files (env : Env) (s : State) :
    (loop env s).files.length = s.files.length ∧
    pendingCount (loop env s).files ≤
      pendingCount s.files + (if admits env = true then 1 else 0) := by
  have hpf : (processCompletedUploads env s).files = s.files.map retired := by
    simp [processCompletedUploads, processLoop_files]
  cases h : allUploaded (processCompletedUploads env s).files with
  | true =>
    rw [(loop_done env s h).2.1, hpf, pendingCount_retired]
    exact ⟨by simp, by omega⟩
  | false =>
    rw [(loop_busy env s h).2.1]
    cases ha : admits env with
    | true =>
      rw [uploadNextFile_admitted _ _ ha]
      simp only [uploadLoop_length, hpf, List.length_map, if_true, true_and]
      have := uploadLoop_pending env (processCompletedUploads env s).fs
        (s.files.map retired) 0
      rw [pendingCount_retired] at this
      exact this
    | false =>
      have hna : env.connected = false ∨ env.canPublish MAX_EVENT_SIZE = false := by
        simp only [admits, Bool.and_eq_false_iff] at ha
        exact ha
      rw [uploadNextFile_refused _ _ hna, hpf, pendingCount_retired]
      exact ⟨by simp, by simp⟩

theorem run_length (acts : List Action) :
    ∀ s, (run acts s).files.length = s.files.length := by
  induction acts with
  | nil => intro s; rfl
  | cons x rest ih =>
    intro s
    cases x with
    | tick env => simp only [run, step, ih, (loop_files env s).1]
    | settle i outcome => simp only [run, step, ih, (statusChange_kept i outcome s).2.2.2]

theorem run_gated_pending (acts : List Action) :
    ∀ s, pendingCount s.files ≤ 1 → gated acts s = true →
      pendingCount (run acts s).files ≤ 1 := by
  induction acts with
  | nil => intro s h _; exact h
  | cons x rest ih =>
    intro s h hg
    cases x with
    | tick env =>
      simp only [gated, Bool.and_eq_true, Bool.or_eq_true, beq_iff_eq,
        Bool.not_eq_true'] at hg
      apply ih _ _ hg.2
      have := (loop_files env s).2
      rcases hg.1 with h0 | hna
      · split at this <;> omega
      · simp only [hna] at this
        simpa using le_trans this h
    | settle i outcome =>
      simp only [gated] at hg
      exact ih _ (le_trans (statusChange_pending i outcome s) h) hg

theorem generateLoop_fresh (genv : GenEnv) (remaining : Nat) :
    ∀ (i k : Nat) (s : State),
      (∀ e ∈ s.files, e.uploaded = false ∧ e.event.status = Status.NEW) →
      ∀ e ∈ (generateLoop genv remaining i k s).files,
        e.uploaded = false ∧ e.event.status = Status.NEW := by
  induction remaining with
  | zero => intro i k s hs; simpa [generateLoop] using hs
  | succ n ih =>
    intro i k s hs
    have hs2 : ∀ x : FileEntry, x.uploaded = false ∧ x.event.status = Status.NEW →
        ∀ e ∈ s.files ++ [x], e.uploaded = false ∧ e.event.status = Status.NEW := by
      intro x hx e hmem
      simp only [List.mem_append, List.mem_singleton] at hmem
      rcases hmem with hmem | rfl
      · exact hs e hmem
      · exact hx
    simp only [generateLoop]
    split
    · exact ih _ _ _ hs
    · split
      · exact ih _ _ _ hs
      · exact ih _ _ _ (hs2 _ ⟨rfl, rfl⟩)

theorem generateLoop_length (genv : GenEnv) (remaining : Nat) :
    ∀ (i k : Nat) (s : State),
      (generateLoop genv remaining i k s).files.length ≤ s.files.length + remaining := by
  induction remaining with
  | zero => intro i k s; simp [generateLoop]
  | succ n ih =>
    intro i k s
    simp only [generateLoop]
    split
    · refine le_trans (ih _ _ _) ?_
      simp only
      omega
    · split
      · refine le_trans (ih _ _ _) ?_
        simp only
        omega
      · refine le_trans (ih _ _ _) ?_
        simp only [List.length_append, List.length_singleton]
        omega

/-- C1 (amended): single flight.  From a collection in which every entry is not uploaded
with a `NEW` event, after any run of ticks and status changes at most one entry is in the
Pending status, provided the collection holds at most one file, or on every tick that
starts with an entry in the Pending status the transport does not admit a publish (it is
not connected, or `canPublish(MAX_EVENT_SIZE)` is false).  In particular this holds for
every run of the program as configured: `generateTestFiles` with `NUM_FILES = 1` yields at
most one tracked file.  (For any number of files the generated entries are not uploaded and
hold a `NEW` event.) -/
theorem single_flight (acts : List Action) (s : State) (genv : GenEnv) (fs0 : FileSystem)
    (numFiles : Nat)
    (hfresh : ∀ e ∈ s.files, e.uploaded = false ∧ e.event.status = Status.NEW)
    (h : s.files.length ≤ 1 ∨ gated acts s = true) :
    pendingCount (run acts s).files ≤ 1 ∧
    pendingCount (run acts (generateTestFiles NUM_FILES genv (initial fs0))).files ≤ 1 ∧
    ∀ e ∈ (generateTestFiles numFiles genv (initial fs0)).files,
      e.uploaded = false ∧ e.event.status = Status.NEW := by
  have small : ∀ t : State, t.files.length ≤ 1 → pendingCount (run acts t).files ≤ 1 := by
    intro t ht
    have h1 : pendingCount (run acts t).files ≤ (run acts t).files.length :=
      List.countP_le_length _
    rw [run_length] at h1
    omega
  refine ⟨?_, ?_, ?_⟩
  · rcases h with h | h
    · exact small s h
    · exact run_gated_pending acts s (by rw [pendingCount_of_fresh s.files hfresh]; omega) h
  · apply small
    simp only [generateTestFiles]
    refine le_trans (generateLoop_length genv NUM_FILES 0 0 _) ?_
    simp [initial, NUM_FILES]
  · simp only [generateTestFiles]
    exact generateLoop_fresh genv numFiles 0 0 _ (by intro e he; simp [initial] at he)

theorem single_flight_witness :
    ((∀ e ∈ (twoFiles fsAB).files, e.uploaded = false ∧ e.event.status = Status.NEW) ∧
      gated (bothDelivered ++ [Action.tick envOk]) (twoFiles fsAB) = true) ∧
    (pendingCount (run (bothDelivered ++ [Action.tick envOk]) (twoFiles fsAB)).files ≤ 1 ∧
      pendingCount (run (bothDelivered ++ [Action.tick envOk])
        (generateTestFiles NUM_FILES genvPlain (initial fsAB))).files ≤ 1 ∧
      ∀ e ∈ (generateTestFiles 2 genvPlain (initial fsAB)).files,
        e.uploaded = false ∧ e.event.status = Status.NEW) :=
  ⟨⟨by decide, by decide⟩,
   single_flight (bothDelivered ++ [Action.tick envOk]) (twoFiles fsAB) genvPlain fsAB 2
     (by decide) (Or.inr (by decide))⟩

/-- C1 as stated fails: from two entries that are not uploaded and hold a `NEW` event, two
ticks with a connected transport that has capacity and accepts each publish leave both
entries in the Pending status.  The second call of `uploadNextFile` skips entry 0 (its event
is neither `NEW` nor `FAILED`) and starts the upload of entry 1; nothing in it looks for an
entry already in flight. -/
theorem two_uploads_in_flight :
    (∀ e ∈ (twoFiles fsAB).files, e.uploaded = false ∧ e.event.status = Status.NEW) ∧
    (run [Action.tick envOk] (twoFiles fsAB)).files.map
      (fun e => e.event.status) = [Status.SENDING, Status.NEW] ∧
    (run [Action.tick envOk, Action.tick envOk] (twoFiles fsAB)).files.map
      (fun e => e.event.status) = [Status.SENDING, Status.SENDING] ∧
    pendingCount (run [Action.tick envOk, Action.tick envOk] (twoFiles fsAB)).files = 2 := by
  decide

end FileUpload
